import Mathlib

/-!
# Verification of the appc-pubsub client

A shallow embedding, in Lean 4, of the algorithmic core of the
`appc-pubsub` JavaScript client (`src/lib/index.js`): the topic
subscription matcher, the delivery/retry state machine, the
publish/update input validation, the webhook authenticator, the payload
sanitizer (over an explicit heap model, since it mutates object graphs
in place), and the subscription-registration bookkeeping.

JavaScript values are modelled explicitly where their dynamic typing
matters (`typeof` checks, truthiness, `undefined` vs `null`, array vs
plain object).  Machine-level concerns (actual HTTP transport, timers,
hashing) are modelled as data: an HTTP attempt outcome is a value, a
scheduled retry is a value carrying its delay, and the HMAC function is
an explicit parameter that theorems quantify over.

Strings are represented as `List Char` (named `Str` below) so that all
operations are structurally recursive and evaluable by the kernel;
`String` wrappers are provided for readable statements on literals.
-/

namespace AppcPubsub

/-- Strings modelled as character lists, so every operation is
structurally recursive and kernel-evaluable. -/
abbrev Str := List Char

/-- JS `s.split(sep)` for a single-character separator: accumulator-based
splitter, e.g. `''.split('.') = ['']` and `'a.'.split('.') = ['a','']`. -/
def splitOnCharAux (c : Char) : Str → Str → List Str
  | [], acc => [acc.reverse]
  | x :: rest, acc =>
    if x = c then acc.reverse :: splitOnCharAux c rest []
    else splitOnCharAux c rest (x :: acc)

/-- JS `s.split(c)` for a one-character separator `c`. -/
def splitOnChar (c : Char) (s : Str) : List Str :=
  splitOnCharAux c s []

/-- JS `s.replace(pat, rep)` with a plain-string pattern: replaces only
the first occurrence of `pat` in `s`. -/
def replaceFirst (pat rep : Str) : Str → Str
  | [] => if pat.isEmpty then rep else []
  | c :: rest =>
    if pat.isPrefixOf (c :: rest) then rep ++ (c :: rest).drop pat.length
    else c :: replaceFirst pat rep rest

/-- JS `s.includes(pat)`: substring containment. -/
def includesSubstr (pat : Str) : Str → Bool
  | [] => pat.isEmpty
  | c :: rest => pat.isPrefixOf (c :: rest) || includesSubstr pat rest

/-! ## Topic matcher (`hasSubscribedTopic`, src/lib/index.js lines 462-494)

The JS code strips a leading `event:` prefix (via `String.replace`,
which replaces only the first occurrence), prepends the internal topics
`configured` and `unauthorized`, and searches the topic list with
`Array.find` using a truthiness-based callback: the callback returns the
topic itself on an exact match (truthy iff non-empty), otherwise a
boolean computed from the segment-wise wildcard check. -/

/-- The body of the `Array.reduce` segment check: topic segment `t` at
index `i` matches when it equals the event segment at the same index
(JS compares against `undefined` past the end, which is never equal to a
string), or is the single wildcard `*`, or is `**` in terminal position
(`i == topicSegments.length - 1`). -/
def segmentOk (eventSegments : List Str) (n i : Nat) (t : Str) : Bool :=
  eventSegments.get? i == some t || t == ['*'] || (t == ['*', '*'] && i == n - 1)

/-- The `Array.reduce` over the topic segments, threading the running
index `i` (the JS reduce keeps conjoining even after a mismatch, which
is observably the same conjunction). -/
def segmentsReduce (eventSegments : List Str) (n : Nat) : Nat → List Str → Bool
  | _, [] => true
  | i, t :: rest =>
    segmentOk eventSegments n i t && segmentsReduce eventSegments n (i + 1) rest

/-- The `Array.find` callback of `hasSubscribedTopic`, returning the JS
truthiness of the callback's result for topic `topic` against the
(already `event:`-stripped) name `name`.  On the exact-match fast path
the JS callback returns `topic` itself, which is truthy iff non-empty. -/
def topicCallback (name topic : Str) : Bool :=
  if topic == name then !topic.isEmpty
  else if !topic.contains '*' then false
  else
    let eventSegments := splitOnChar '.' name
    let topicSegments := splitOnChar '.' topic
    if !includesSubstr ['*', '*'] topic
        && eventSegments.length != topicSegments.length then
      false
    else
      segmentsReduce eventSegments topicSegments.length 0 topicSegments

/-- `PubSubClient.prototype.hasSubscribedTopic`: strips the `event:`
prefix, prepends the internal topics, and returns the first topic whose
callback result is truthy (JS returns the found topic or `null`). -/
def hasSubscribedTopic (name : Str) (topics : List Str) : Option Str :=
  let name := replaceFirst "event:".data [] name
  let validTopics := ["configured".data, "unauthorized".data] ++ topics
  validTopics.find? (topicCallback name)

/-- Truthiness of the `hasSubscribedTopic` result, as used by callers
(`if (this.hasSubscribedTopic(topic)) ...`). -/
def matchesTopics (name : String) (topics : List String) : Bool :=
  (hasSubscribedTopic name.data (topics.map String.data)).isSome

example : matchesTopics "com.test.event" ["com.test.event"] = true := by decide
example : matchesTopics "com.test.topic.anything" ["com.test.topic.*"] = true := by decide
example : matchesTopics "com.test.topic.a.b" ["com.test.topic.*"] = false := by decide
example : matchesTopics "com.splatted.a.b.c" ["com.splatted.**"] = true := by decide
example : matchesTopics "com.invalid.event" ["com.test.event"] = false := by decide
example : matchesTopics "com.splatted" ["com.splatted.**"] = true := by decide
example : matchesTopics "com" ["com.splatted.**"] = false := by decide
example : matchesTopics "event:com.test.event" ["com.test.event"] = true := by decide

/-! ### Structural lemmas about the topic matcher -/

lemma splitOnCharAux_append_cons (c : Char) (l r acc : Str) :
    splitOnCharAux c (l ++ c :: r) acc =
      splitOnCharAux c l acc ++ splitOnChar c r := by
  induction l generalizing acc with
  | nil => simp [splitOnCharAux, splitOnChar]
  | cons x l ih =>
    by_cases hx : x = c
    · subst hx
      simp [splitOnCharAux, ih]
    · simp [splitOnCharAux, hx, ih]

lemma splitOnChar_append_double_splat (pre : Str) :
    splitOnChar '.' (pre ++ '.' :: '*' :: '*' :: []) =
      splitOnChar '.' pre ++ [['*', '*']] := by
  have h := splitOnCharAux_append_cons '.' pre ('*' :: '*' :: []) []
  simpa [splitOnChar] using h

lemma includesSubstr_cons_of (pat : Str) (x : Char) (s : Str)
    (h : includesSubstr pat s = true) : includesSubstr pat (x :: s) = true := by
  show (pat.isPrefixOf (x :: s) || includesSubstr pat s) = true
  rw [h, Bool.or_true]

lemma includesSubstr_append_left (pat l s : Str)
    (h : includesSubstr pat s = true) :
    includesSubstr pat (l ++ s) = true := by
  induction l with
  | nil => simpa using h
  | cons x l ih => exact includesSubstr_cons_of pat x (l ++ s) ih

lemma contains_append_right (l s : Str) (x : Char) (h : s.contains x = true) :
    (l ++ s).contains x = true := by
  have hx : x ∈ s := List.elem_iff.mp h
  exact List.elem_iff.mpr (List.mem_append_right l hx)

lemma segmentsReduce_eq_true_iff (es : List Str) (n : Nat) (l : List Str) :
    ∀ i, segmentsReduce es n i l = true ↔
      ∀ j t, l.get? j = some t → segmentOk es n (i + j) t = true := by
  induction l with
  | nil => intro i; simp [segmentsReduce]
  | cons t rest ih =>
    intro i
    simp only [segmentsReduce, Bool.and_eq_true, ih (i + 1)]
    constructor
    · rintro ⟨h0, hrest⟩ j t' hj
      cases j with
      | zero =>
        have ht : t = t' := by simpa using hj
        subst ht
        simpa using h0
      | succ j =>
        have hj' : rest.get? j = some t' := by simpa using hj
        have hgoal := hrest j t' hj'
        have harith : i + 1 + j = i + (j + 1) := by omega
        rwa [harith] at hgoal
    · intro hfa
      refine ⟨?_, fun j t' hj' => ?_⟩
      · have := hfa 0 t (by simp)
        simpa using this
      · have := hfa (j + 1) t' (by simpa using hj')
        have harith : i + (j + 1) = i + 1 + j := by omega
        rwa [harith] at this

/-- Claim C1, counterexample.  The specification asserts that a topic
pattern ending in `**` requires at least one event segment beyond the
pattern's prefix, in particular that
`matches('com.splatted', 'com.splatted.**')` is false.  The code's
segment check accepts the terminal `**` segment unconditionally, so the
two-segment name `com.splatted` (zero segments beyond the prefix)
already matches the pattern `com.splatted.**`. -/
theorem C1_double_splat_counterexample :
    matchesTopics "com.splatted" ["com.splatted.**"] = true ∧
    hasSubscribedTopic "com.splatted".data ["com.splatted.**".data] =
      some "com.splatted.**".data := by
  constructor <;> decide

/-- Claim C1, amended.  For every event name and every topic pattern
whose last segment is `**` (a bare `**` or anything ending in `.**`),
the matcher's callback accepts exactly when the pattern equals the name,
or every pattern segment before the terminal `**` equals the event
segment at the same index or is the single wildcard `*`; the terminal
`**` absorbs any number — including zero — of remaining event segments.
In particular `com.splatted.a.b.c` and `com.splatted` both match
`com.splatted.**`. -/
theorem C1_double_splat_amended (name topic : Str)
    (h : topic = ['*', '*'] ∨ ∃ pre, topic = pre ++ '.' :: '*' :: '*' :: []) :
    (topicCallback name topic = true ↔
      (topic = name ∨
        ∀ i, i < (splitOnChar '.' topic).length - 1 →
          ((splitOnChar '.' name).get? i = (splitOnChar '.' topic).get? i ∨
            (splitOnChar '.' topic).get? i = some ['*']))) ∧
    matchesTopics "com.splatted.a.b.c" ["com.splatted.**"] = true ∧
    matchesTopics "com.splatted" ["com.splatted.**"] = true := by
  refine ⟨?_, by decide, by decide⟩
  -- the topic's segments are its prefix segments followed by `**`
  obtain ⟨ps, hsplit⟩ : ∃ ps, splitOnChar '.' topic = ps ++ [['*', '*']] := by
    rcases h with h | ⟨pre, rfl⟩
    · exact ⟨[], by subst h; decide⟩
    · exact ⟨splitOnChar '.' pre, splitOnChar_append_double_splat pre⟩
  have htopic_ne : topic ≠ [] := by
    rcases h with h | ⟨pre, rfl⟩
    · subst h; simp
    · simp
  by_cases heq : topic = name
  · subst heq
    simp [topicCallback, htopic_ne]
  · have hcontains : topic.contains '*' = true := by
      rcases h with h | ⟨pre, rfl⟩
      · subst h; decide
      · exact contains_append_right pre _ '*' (by decide)
    have hincl : includesSubstr ['*', '*'] topic = true := by
      rcases h with h | ⟨pre, rfl⟩
      · subst h; decide
      · exact includesSubstr_append_left _ pre _ (by decide)
    have hne' : (topic == name) = false := by
      simpa using heq
    simp only [topicCallback, hne', Bool.false_eq_true, if_false, hcontains,
      Bool.not_true, if_false, hincl, Bool.false_and, if_false]
    rw [hsplit, segmentsReduce_eq_true_iff]
    have hlen : (ps ++ [['*', '*']]).length = ps.length + 1 := by simp
    constructor
    · intro hall
      refine Or.inr fun i hi => ?_
      have hi' : i < ps.length := by omega
      obtain ⟨t, ht⟩ : ∃ t, (ps ++ [['*', '*']]).get? i = some t := by
        have hlt : i < (ps ++ [['*', '*']]).length := by omega
        exact ⟨_, List.get?_eq_get hlt⟩
      have hok := hall i t ht
      rw [Nat.zero_add] at hok
      simp only [segmentOk, Bool.or_eq_true, beq_iff_eq, Bool.and_eq_true] at hok
      cases hok with
      | inl hab =>
        cases hab with
        | inl ha => exact Or.inl (by rw [ht, ha])
        | inr hb => exact Or.inr (by rw [ht, hb])
      | inr hc =>
        exfalso
        have hidx := hc.2
        omega
    · rintro (hcase | hcase)
      · exact absurd hcase heq
      · intro j t hj
        rw [Nat.zero_add]
        simp only [segmentOk, Bool.or_eq_true, beq_iff_eq, Bool.and_eq_true]
        rcases Nat.lt_or_ge j ps.length with hlt | hge
        · have hcj := hcase j (by omega)
          rw [hj] at hcj
          rcases hcj with hthis | hthis
          · exact Or.inl (Or.inl hthis)
          · have ht : t = ['*'] := by simpa using hthis
            exact Or.inl (Or.inr ht)
        · have hj'' : j = ps.length := by
            by_contra hne
            have hbig : (ps ++ [['*', '*']]).length ≤ j := by omega
            rw [List.get?_eq_none.mpr hbig] at hj
            exact Option.noConfusion hj
          subst hj''
          have ht : t = ['*', '*'] := by
            rw [List.get?_concat_length] at hj
            exact (Option.some_injective _ hj).symm
          subst ht
          refine Or.inr ⟨rfl, ?_⟩
          simp

/-- Witness for `C1_double_splat_amended` at the concrete pattern
`com.splatted.**` and name `com.splatted.x`. -/
theorem C1_double_splat_amended_witness :
    ("com.splatted.**".data = ['*', '*'] ∨
      ∃ pre, "com.splatted.**".data = pre ++ '.' :: '*' :: '*' :: []) ∧
    ((topicCallback "com.splatted.x".data "com.splatted.**".data = true ↔
      ("com.splatted.**".data = "com.splatted.x".data ∨
        ∀ i, i < (splitOnChar '.' "com.splatted.**".data).length - 1 →
          ((splitOnChar '.' "com.splatted.x".data).get? i =
              (splitOnChar '.' "com.splatted.**".data).get? i ∨
            (splitOnChar '.' "com.splatted.**".data).get? i = some ['*']))) ∧
      matchesTopics "com.splatted.a.b.c" ["com.splatted.**"] = true ∧
      matchesTopics "com.splatted" ["com.splatted.**"] = true) :=
  ⟨Or.inr ⟨"com.splatted".data, by decide⟩,
    C1_double_splat_amended "com.splatted.x".data "com.splatted.**".data
      (Or.inr ⟨"com.splatted".data, by decide⟩)⟩

/-! ## Delivery engine (`_send` / `_retry`, src/lib/index.js lines 665-776)

`_send` increments the per-id retry counter `this.retries[id]`
(`undefined` reads as 0), issues the HTTP request, deletes the counter
on success, and classifies failures: 401/403 emit `unauthorized`, 404
emits `notfound`, 400 is logged — none of those retries — and every
other failure (any other status, or a transport-level error whose
`err.code` is the string `String(e)`, never strictly equal to a number)
calls `_retry`.  `_retry` abandons the event once the counter exceeds
`this.retryLimit`, otherwise schedules exactly one re-send after an
exponential-backoff delay.  The promise chain swallows everything: no
path throws back to the caller. -/

/-- The error code `_send` attaches to a failure:
`e.response && e.response.status || String(e)`.  A transport-level
failure (no response, or a falsy status) yields a string, which is never
strictly equal (`===`) to any of the guarded numeric codes. -/
inductive ErrCode where
  | num (code : Nat)
  | str
deriving DecidableEq, Repr

/-- Outcome of one HTTP attempt: the promise resolved (2xx) or rejected
with the classified error code. -/
inductive Outcome where
  | success
  | failure (code : ErrCode)
deriving DecidableEq, Repr

/-- What one `_send` invocation did, as observable behaviour. -/
inductive SendAction where
  | skippedDisabled
  | skippedNoData
  | delivered
  | unauthorized
  | notFound
  | rejected
  | retryScheduled (delay : Nat)
  | abandoned
deriving DecidableEq, Repr

/-- The backoff delay computed in `_retry`:
`Math.max(500, (Math.pow(2, this.retries[id]) - 1) * 500)`. -/
def backoffDelay (attempts : Nat) : Nat :=
  max 500 ((2 ^ attempts - 1) * 500)

/-- `_retry` (lines 674-688) for a non-disabled client, with `r` the
current value of `this.retries[id]`: past the limit the event is
abandoned (a log line only, nothing rethrown, the record not touched);
otherwise one `setTimeout` re-invoking `_send` is scheduled. -/
def retryStep (retryLimit r : Nat) : SendAction :=
  if r > retryLimit then .abandoned else .retryScheduled (backoffDelay r)

/-- `_send` (lines 697-776) specialised to a single event id: given the
current retry record (`none` when the id is absent from `this.retries`)
and the HTTP outcome, returns the new record and the observable action.
`hasEventOrId` is the `!data?.event && !data?.id` guard. -/
def sendStep (disabled : Bool) (retryLimit : Nat) (hasEventOrId : Bool)
    (st : Option Nat) (outcome : Outcome) : Option Nat × SendAction :=
  if disabled then (st, .skippedDisabled)
  else if !hasEventOrId then (st, .skippedNoData)
  else
    let r := st.getD 0 + 1
    match outcome with
    | .success => (none, .delivered)
    | .failure code =>
      if code = .num 401 ∨ code = .num 403 then (some r, .unauthorized)
      else if code = .num 404 then (some r, .notFound)
      else if code = .num 400 then (some r, .rejected)
      else (some r, retryStep retryLimit r)

/-- A whole delivery run for one event id: each attempt consumes the
next HTTP outcome; the only way a further attempt happens is the
`setTimeout` scheduled by `_retry`, so the run continues exactly after a
`retryScheduled` action and stops otherwise. -/
def runSends (disabled : Bool) (retryLimit : Nat) (hasEventOrId : Bool) :
    List Outcome → Option Nat → Option Nat × List SendAction
  | [], st => (st, [])
  | o :: rest, st =>
    let step := sendStep disabled retryLimit hasEventOrId st o
    match step.2 with
    | .retryScheduled d =>
      let cont := runSends disabled retryLimit hasEventOrId rest step.1
      (cont.1, .retryScheduled d :: cont.2)
    | a => (step.1, [a])

example :
    runSends false 1 true [.failure (.num 500), .failure (.num 500)] none =
      (some 2, [.retryScheduled 500, .abandoned]) := by decide
example :
    runSends false 2 true [.failure .str, .failure (.num 502), .success] none =
      (none, [.retryScheduled 500, .retryScheduled 1500, .delivered]) := by decide


lemma runSends_cons_of_sched (dis : Bool) (limit : Nat) (he : Bool)
    (o : Outcome) (rest : List Outcome) (st st' : Option Nat) (d : Nat)
    (h : sendStep dis limit he st o = (st', .retryScheduled d)) :
    runSends dis limit he (o :: rest) st =
      ((runSends dis limit he rest st').1,
        .retryScheduled d :: (runSends dis limit he rest st').2) := by
  simp [runSends, h]

lemma runSends_cons_of_stop (dis : Bool) (limit : Nat) (he : Bool)
    (o : Outcome) (rest : List Outcome) (st st' : Option Nat) (a : SendAction)
    (h : sendStep dis limit he st o = (st', a))
    (ha : ∀ d, a ≠ SendAction.retryScheduled d) :
    runSends dis limit he (o :: rest) st = (st', [a]) := by
  cases a <;> simp_all [runSends]

/-- Invariant of a delivery run: starting from a retry record at most
`limit`, the counter never passes `limit + 1`, the number of send
attempts is bounded by `limit + 1` minus the starting count, and every
action except possibly the last one is a scheduled retry (so after an
abandonment — or any terminal outcome — no further attempt occurs). -/
lemma runSends_invariant (limit : Nat) (outcomes : List Outcome) :
    ∀ st : Option Nat, st.getD 0 ≤ limit →
      (∀ r, (runSends false limit true outcomes st).1 = some r → r ≤ limit + 1) ∧
      (runSends false limit true outcomes st).2.length + st.getD 0 ≤ limit + 1 ∧
      (∀ a ∈ (runSends false limit true outcomes st).2.dropLast,
        ∃ d, a = SendAction.retryScheduled d) := by
  induction outcomes with
  | nil =>
    intro st h
    refine ⟨fun r hr => ?_, by simp [runSends]; omega, by simp [runSends]⟩
    simp only [runSends] at hr
    subst hr
    simpa using Nat.le_succ_of_le h
  | cons o rest ih =>
    intro st h
    have hstop :
        ∀ st' a, sendStep false limit true st o = (st', a) →
          (∀ d, a ≠ SendAction.retryScheduled d) →
          (∀ r, st' = some r → r ≤ limit + 1) →
          (∀ r, (runSends false limit true (o :: rest) st).1 = some r →
              r ≤ limit + 1) ∧
          (runSends false limit true (o :: rest) st).2.length + st.getD 0 ≤
            limit + 1 ∧
          (∀ b ∈ (runSends false limit true (o :: rest) st).2.dropLast,
            ∃ d, b = SendAction.retryScheduled d) := by
      intro st' a hstep hns hbound
      rw [runSends_cons_of_stop false limit true o rest st st' a hstep hns]
      exact ⟨hbound, by simp; omega, by simp⟩
    cases o with
    | success =>
      exact hstop none .delivered (by simp [sendStep]) (by simp)
        (fun r hr => by simp at hr)
    | failure code =>
      by_cases h1 : code = ErrCode.num 401 ∨ code = ErrCode.num 403
      · exact hstop (some (st.getD 0 + 1)) .unauthorized
          (by simp [sendStep, h1]) (by simp)
          (fun r hr => by simp at hr; omega)
      · by_cases h2 : code = ErrCode.num 404
        · exact hstop (some (st.getD 0 + 1)) .notFound
            (by simp [sendStep, h1, h2]) (by simp)
            (fun r hr => by simp at hr; omega)
        · by_cases h3 : code = ErrCode.num 400
          · exact hstop (some (st.getD 0 + 1)) .rejected
              (by simp [sendStep, h1, h2, h3]) (by simp)
              (fun r hr => by simp at hr; omega)
          · by_cases h4 : st.getD 0 + 1 > limit
            · exact hstop (some (st.getD 0 + 1)) .abandoned
                (by simp [sendStep, retryStep, h1, h2, h3, h4]) (by simp)
                (fun r hr => by simp at hr; omega)
            · have hstep : sendStep false limit true st (Outcome.failure code) =
                  (some (st.getD 0 + 1),
                    .retryScheduled (backoffDelay (st.getD 0 + 1))) := by
                simp [sendStep, retryStep, h1, h2, h3, h4]
              rw [runSends_cons_of_sched false limit true _ rest st _ _ hstep]
              obtain ⟨ih1, ih2, ih3⟩ :=
                ih (some (st.getD 0 + 1)) (by simpa using h4)
              refine ⟨ih1, ?_, ?_⟩
              · simp only [Option.getD_some] at ih2
                simp only [List.length_cons]
                omega
              · intro b hb
                rcases hcont : (runSends false limit true rest
                    (some (st.getD 0 + 1))).2 with _ | ⟨y, l⟩
                · rw [hcont] at hb
                  simp at hb
                · rw [hcont] at hb
                  rw [List.dropLast_cons₂] at hb
                  rcases List.mem_cons.mp hb with rfl | hb'
                  · exact ⟨_, rfl⟩
                  · exact ih3 b (by rw [hcont]; exact hb')

/-- Claim C2, counterexample.  The specification asserts that
`retries[id]` never exceeds the configured `retryLimit` and that, once
the limit is exceeded, the retry record is deleted from the table.  With
`retryLimit = 1`, two failing attempts drive the counter to 2 (strictly
above the limit) and the abandonment path of `_retry` merely logs — the
record stays in the table at value 2; only the success path
(`delete this.retries[id]`) ever removes it. -/
theorem C2_retry_limit_counterexample :
    (runSends false 1 true [.failure (.num 500), .failure (.num 500)] none).1 =
      some 2 ∧
    1 < 2 ∧
    (runSends false 1 true
        [.failure (.num 500), .failure (.num 500)] none).2.getLast? =
      some .abandoned := by
  decide

/-- Claim C2, amended.  For every retry limit and every sequence of HTTP
outcomes, the per-id retry counter never exceeds `retryLimit + 1` (it
passes the configured limit by exactly one before `_retry` notices), at
most `retryLimit + 1` send attempts happen, every action before the last
is a scheduled retry (so after abandonment no further attempt occurs,
and nothing is raised to the caller — the step function is total and
returns an action, never an exception), and the record is deleted
exactly on success, not on abandonment. -/
theorem C2_retry_limit_amended (limit : Nat) (outcomes : List Outcome) :
    (∀ r, (runSends false limit true outcomes none).1 = some r →
      r ≤ limit + 1) ∧
    (runSends false limit true outcomes none).2.length ≤ limit + 1 ∧
    (∀ a ∈ (runSends false limit true outcomes none).2.dropLast,
      ∃ d, a = SendAction.retryScheduled d) ∧
    (∀ st, sendStep false limit true st Outcome.success =
      (none, SendAction.delivered)) := by
  obtain ⟨h1, h2, h3⟩ := runSends_invariant limit outcomes none (by simp)
  exact ⟨h1, by simpa using h2, h3, fun st => by simp [sendStep]⟩

/-- Witness for `C2_retry_limit_amended` at limit 1 and two failures. -/
theorem C2_retry_limit_amended_witness :
    (runSends false 1 true
        [.failure (.num 500), .failure (.num 500)] none).1 = some 2 ∧
    2 ≤ 1 + 1 :=
  ⟨by decide,
    (C2_retry_limit_amended 1 [.failure (.num 500), .failure (.num 500)]).1 2
      (by decide)⟩

/-- Claim C3, confirmed.  Under the retry limit, a 400 outcome is
terminal (`rejected`, no scheduled retry), a 500 outcome schedules
exactly one retry (the single action returned) with the backoff delay,
which is at least 500 ms; every status outside the terminal set
{400, 401, 403, 404}, and every transport-level error (whose `err.code`
is a string, never strictly equal to a number), likewise leads to a
scheduled retry. -/
theorem C3_terminal_vs_retryable (limit : Nat) (st : Option Nat)
    (h : st.getD 0 + 1 ≤ limit) :
    sendStep false limit true st (.failure (.num 400)) =
      (some (st.getD 0 + 1), .rejected) ∧
    (∀ d, (sendStep false limit true st (.failure (.num 400))).2 ≠
      .retryScheduled d) ∧
    sendStep false limit true st (.failure (.num 500)) =
      (some (st.getD 0 + 1), .retryScheduled (backoffDelay (st.getD 0 + 1))) ∧
    500 ≤ backoffDelay (st.getD 0 + 1) ∧
    (∀ c : Nat, c ≠ 400 → c ≠ 401 → c ≠ 403 → c ≠ 404 →
      (sendStep false limit true st (.failure (.num c))).2 =
        .retryScheduled (backoffDelay (st.getD 0 + 1))) ∧
    (sendStep false limit true st (.failure .str)).2 =
      .retryScheduled (backoffDelay (st.getD 0 + 1)) := by
  have hnot : ¬ st.getD 0 + 1 > limit := by omega
  refine ⟨by simp [sendStep], ?_, by simp [sendStep, retryStep, hnot], ?_, ?_, ?_⟩
  · intro d
    simp [sendStep]
  · exact le_max_left _ _
  · intro c hc400 hc401 hc403 hc404
    simp [sendStep, retryStep, hnot, hc400, hc401, hc403, hc404]
  · simp [sendStep, retryStep, hnot]

/-- Witness for `C3_terminal_vs_retryable` at limit 10 on a fresh id. -/
theorem C3_terminal_vs_retryable_witness :
    ((none : Option Nat).getD 0 + 1 ≤ 10) ∧
    sendStep false 10 true none (.failure (.num 500)) =
      (some 1, .retryScheduled (backoffDelay 1)) :=
  ⟨by decide, (C3_terminal_vs_retryable 10 none (by decide)).2.2.1⟩

/-- Claim C6, confirmed.  The `_retry` backoff delay equals
`max(500, (2^attempts - 1) * 500)`, is always at least 500 ms, and is
non-decreasing in the attempt count. -/
theorem C6_backoff_monotone (a b : Nat) (h : a ≤ b) :
    backoffDelay a = max 500 ((2 ^ a - 1) * 500) ∧
    500 ≤ backoffDelay a ∧
    backoffDelay a ≤ backoffDelay b := by
  refine ⟨rfl, le_max_left _ _, ?_⟩
  have hpow : 2 ^ a ≤ 2 ^ b := Nat.pow_le_pow_right (by norm_num) h
  exact max_le_max le_rfl (Nat.mul_le_mul_right _ (Nat.sub_le_sub_right hpow 1))

/-- Witness for `C6_backoff_monotone` at attempts 1 and 3. -/
theorem C6_backoff_monotone_witness :
    1 ≤ 3 ∧
    (backoffDelay 1 = max 500 ((2 ^ 1 - 1) * 500) ∧
      500 ≤ backoffDelay 1 ∧
      backoffDelay 1 ≤ backoffDelay 3) :=
  ⟨by decide, C6_backoff_monotone 1 3 (by decide)⟩


/-! ## Publish / update input validation (src/lib/index.js lines 524-602)

`publish(event, data = {}, options = {})` and
`update(id, data = {}, options = {})` validate synchronously, before any
network activity, and throw `Error`s for invalid input.  The payloads
are modelled by their JS dynamic class, which is all the checks inspect:
`typeof`, `Array.isArray`, truthiness, and whether the JSON round-trip
clone (`JSON.parse(JSON.stringify(data || {}))`) succeeds. -/

/-- The dynamic class of a JS argument.  `objc c` is a plain object
whose JSON round-trip succeeds iff `c`; `arr` an array; the remaining
constructors carry their `typeof`. -/
inductive JSParam where
  | undef
  | null
  | objc (cloneable : Bool)
  | arr
  | strv
  | numv
  | boolv
  | funcv
deriving DecidableEq, Repr

/-- JS `typeof` for each parameter class (`typeof null` is `'object'`,
and arrays are `typeof 'object'` too). -/
def jsTypeof : JSParam → Str
  | .undef => "undefined".data
  | .null => "object".data
  | .objc _ => "object".data
  | .arr => "object".data
  | .strv => "string".data
  | .numv => "number".data
  | .boolv => "boolean".data
  | .funcv => "function".data

/-- The errors `publish`/`update` can throw synchronously (the last one
is the `TypeError` raised by `options.timestamp` when `options` is
`null`, which passes the `typeof` check). -/
inductive PubError where
  | requiredEventName
  | nameTooLong
  | dataMustBeObject
  | dataParse
  | optionsMustBeObject
  | requiredEventId
  | nullOptionsTypeError
deriving DecidableEq, Repr

/-- Result of a `publish`/`update` call that did not throw. -/
inductive PubResult where
  | noop
  | sent
deriving DecidableEq, Repr

deriving instance DecidableEq for Except

/-- UTF-8 byte length of a name, mirroring `Buffer.byteLength(event)`. -/
def utf8ByteLength (s : Str) : Nat :=
  (s.map Char.utf8Size).sum

/-- `PubSubClient.prototype.publish` (lines 530-566): the disabled
short-circuit precedes all validation; a falsy event name throws; a name
over 255 UTF-8 bytes throws; non-object or array data throws; a data
object the JSON round-trip cannot serialise throws; then the options
check — which, as in the source, re-tests `Array.isArray(data)` on the
already-cloned data rather than testing the options argument — and the
`options.timestamp` defaulting, which raises a `TypeError` on `null`
options.  A surviving call hands the sanitized clone to `_send`. -/
def publish (disabled : Bool) (event : Option Str) (data options : JSParam) :
    Except PubError PubResult :=
  if disabled then .ok .noop
  else if event = none ∨ event = some [] then .error .requiredEventName
  else if 255 < utf8ByteLength (event.getD []) then .error .nameTooLong
  else
    let data := if data = .undef then .objc true else data
    if jsTypeof data ≠ "object".data ∨ data = .arr then .error .dataMustBeObject
    else if data = .objc false then .error .dataParse
    else
      -- `data` is reassigned to its JSON round-trip clone, a plain object
      let data := JSParam.objc true
      let options := if options = .undef then .objc true else options
      if jsTypeof options ≠ "object".data ∨ data = .arr then
        .error .optionsMustBeObject
      else if options = .null then .error .nullOptionsTypeError
      else .ok .sent

/-- `PubSubClient.prototype.update` (lines 574-602): like `publish` but
keyed by event id, without the name-length check and without the
`options.timestamp` defaulting (so `null` options survive). -/
def update (disabled : Bool) (id : Option Str) (data options : JSParam) :
    Except PubError PubResult :=
  if disabled then .ok .noop
  else if id = none ∨ id = some [] then .error .requiredEventId
  else
    let data := if data = .undef then .objc true else data
    if jsTypeof data ≠ "object".data ∨ data = .arr then .error .dataMustBeObject
    else if data = .objc false then .error .dataParse
    else
      let data := JSParam.objc true
      let options := if options = .undef then .objc true else options
      if jsTypeof options ≠ "object".data ∨ data = .arr then
        .error .optionsMustBeObject
      else .ok .sent

example : publish false (some "x".data) (.objc true) .undef = .ok .sent := by decide
example : publish false (some "x".data) .null .undef = .ok .sent := by decide
example : publish false (some "x".data) (.objc true) .null =
    .error .nullOptionsTypeError := by decide
example : update false (some "id1".data) (.objc true) .null = .ok .sent := by decide

set_option maxRecDepth 10000 in
/-- Claim C4, the code evaluated at the failing input and at the inputs
the claim correctly describes.  `publish('x', {}, [])` does NOT throw
`'options must be an object'` — the options guard re-tests
`Array.isArray(data)` on the already-validated, cloned event data
instead of the options argument, so an array options value slips through
and the event is sent.  All other validations behave as claimed:
missing/empty name, a 256-byte name, non-object or array data,
primitive options, and `update` without an id all throw synchronously,
before any send. -/
theorem C4_validation_options_array_bug :
    publish false (some "x".data) (.objc true) .arr = .ok .sent ∧
    publish false none (.objc true) .undef = .error .requiredEventName ∧
    publish false (some []) (.objc true) .undef = .error .requiredEventName ∧
    publish false (some (List.replicate 256 'a')) (.objc true) .undef =
      .error .nameTooLong ∧
    publish false (some "x".data) .strv .undef = .error .dataMustBeObject ∧
    publish false (some "x".data) .arr .undef = .error .dataMustBeObject ∧
    publish false (some "x".data) (.objc true) .strv =
      .error .optionsMustBeObject ∧
    update false none (.objc true) .undef = .error .requiredEventId ∧
    update false (some []) (.objc true) .undef = .error .requiredEventId := by
  decide

/-! ## Constructor (src/lib/index.js lines 308-342) -/

/-- Constructor options relevant to the disabled/credentials flow. -/
structure CtorOpts where
  disabled : Bool
  key : Option Str
  secret : Option Str
deriving DecidableEq, Repr

/-- The observable initialisation a construction performs. -/
structure ClientInit where
  disabled : Bool
  retriesInitialized : Bool
  configFetched : Bool
deriving DecidableEq, Repr

/-- `PubSubClient` constructor: a disabled client returns before the
key/secret checks, before `this.retries = {}` is initialised and before
`fetchConfig()` issues its request; otherwise a falsy key or secret
throws, and a fully constructed client has its retry table and a config
fetch in flight. -/
def PubSubClientCtor (opts : CtorOpts) : Except Str ClientInit :=
  if opts.disabled then .ok ⟨true, false, false⟩
  else if opts.key = none ∨ opts.key = some [] then .error "missing key".data
  else if opts.secret = none ∨ opts.secret = some [] then
    .error "missing secret".data
  else .ok ⟨false, true, true⟩

/-- Claim C10, confirmed.  A client constructed with `opts.disabled` set
constructs successfully with no key or secret, fetches no config and
creates no retry table; `publish` and `update` on it return `undefined`
(here `.ok .noop`) for every input — including inputs that would
otherwise throw — because the disabled check precedes validation; and a
disabled `_send` leaves the retry record untouched and issues nothing. -/
theorem C10_disabled_short_circuit (opts : CtorOpts)
    (h : opts.disabled = true) :
    PubSubClientCtor opts = .ok ⟨true, false, false⟩ ∧
    (∀ event data options, publish true event data options = .ok .noop) ∧
    (∀ id data options, update true id data options = .ok .noop) ∧
    (∀ limit he st o, sendStep true limit he st o = (st, .skippedDisabled)) := by
  refine ⟨by simp [PubSubClientCtor, h], ?_, ?_, ?_⟩
  · intro event data options
    simp [publish]
  · intro id data options
    simp [update]
  · intro limit he st o
    simp [sendStep]

/-- Witness for `C10_disabled_short_circuit` on a client with no key or
secret. -/
theorem C10_disabled_short_circuit_witness :
    (CtorOpts.mk true none none).disabled = true ∧
    (PubSubClientCtor ⟨true, none, none⟩ = .ok ⟨true, false, false⟩ ∧
      (∀ event data options, publish true event data options = .ok .noop) ∧
      (∀ id data options, update true id data options = .ok .noop) ∧
      (∀ limit he st o, sendStep true limit he st o =
        (st, .skippedDisabled))) :=
  ⟨rfl, C10_disabled_short_circuit ⟨true, none, none⟩ rfl⟩


/-! ## Webhook authenticator (`authenticateWebhook`, src/lib/index.js lines 353-401)

The async middleware short-circuits on an already-authenticated request,
reads the body via `_getBody` (returning false after `_sendBodyError`
responded 400 — or crashing with a `TypeError` inside `_sendBodyError`
if no response object was supplied), rejects clients without consumption
(400), then branches on `config.auth_type`:

* `basic`: `const creds = auth(req)` — the `basic-auth` parser returns
  `undefined` when the `Authorization` header is absent or malformed, so
  `creds.name` throws a `TypeError` and the async function rejects;
  otherwise exact string comparison of name/pass against
  `config.auth_user` / `auth_pass` (comparison with an `undefined`
  config field is false);
* `token`: strict equality of the `x-auth-token` header and
  `config.auth_token` (both `undefined` compares true);
* `key_secret`: strict equality of the `x-signature` header and the
  hex HMAC-SHA256 of the serialised body under the client secret (the
  HMAC is an explicit function parameter here);
* anything else: authenticated.

On a failed check it responds 401 `{success:false, message:'Unauthorized'}`
when a response object is present, and returns false. -/

/-- The client configuration fields the authenticator reads. -/
structure WebhookConfig where
  can_consume : Bool
  auth_type : Option Str
  auth_user : Option Str
  auth_pass : Option Str
  auth_token : Option Str
deriving DecidableEq, Repr

/-- The request fields the authenticator reads: the idempotency flag,
the `basic-auth` parse result (`none` when the `Authorization` header is
missing or malformed), the two auth headers, and the parsed body in its
serialised form (`none` when `_getBody` failed). -/
structure WebhookRequest where
  authenticatedFlag : Bool
  basicCreds : Option (Str × Str)
  xAuthToken : Option Str
  xSignature : Option Str
  body : Option Str
deriving DecidableEq, Repr

/-- A response written by the middleware: status plus the JSON body
`{success, message}`. -/
structure HttpResponse where
  status : Nat
  success : Bool
  message : Str
deriving DecidableEq, Repr

/-- Observable result of a completed `authenticateWebhook` call. -/
structure AuthResult where
  returned : Bool
  response : Option HttpResponse
  nextCalled : Bool
  markAuthenticated : Bool
deriving DecidableEq, Repr

/-- A JS runtime exception escaping the async function (rejecting the
returned promise). -/
inductive JsError where
  | typeError
deriving DecidableEq, Repr

/-- `PubSubClient.prototype.authenticateWebhook`, with the HMAC an
explicit parameter. -/
def authenticateWebhook (hmac : Str → Str → Str) (secret : Str)
    (conf : WebhookConfig) (req : WebhookRequest) (resPresent : Bool) :
    Except JsError AuthResult :=
  if req.authenticatedFlag then .ok ⟨true, none, true, false⟩
  else
    match req.body with
    | none =>
      -- `_getBody` failed: `_sendBodyError` responds 400, but it
      -- dereferences `res` unconditionally
      if resPresent then
        .ok ⟨false, some ⟨400, false, "Body parse error".data⟩, false, false⟩
      else .error .typeError
    | some bodyStr =>
      if !conf.can_consume then
        .ok ⟨false,
          if resPresent then
            some ⟨400, false,
              "This client does not have consumption enabled.".data⟩
          else none,
          false, false⟩
      else
        let authed? : Except JsError Bool :=
          if conf.auth_type = some "basic".data then
            match req.basicCreds with
            | none => .error .typeError
            | some (n, p) =>
              .ok (some n == conf.auth_user && some p == conf.auth_pass)
          else if conf.auth_type = some "token".data then
            .ok (req.xAuthToken == conf.auth_token)
          else if conf.auth_type = some "key_secret".data then
            .ok (req.xSignature == some (hmac secret bodyStr))
          else .ok true
        match authed? with
        | .error e => .error e
        | .ok false =>
          .ok ⟨false,
            if resPresent then some ⟨401, false, "Unauthorized".data⟩
            else none,
            false, false⟩
        | .ok true => .ok ⟨true, none, true, true⟩

example :
    authenticateWebhook (fun _ _ => []) "secret".data
      ⟨true, some "basic".data, some "un".data, some "pw".data, none⟩
      ⟨false, some ("un".data, "pw".data), none, none, some "{}".data⟩ true =
    .ok ⟨true, none, true, true⟩ := by decide
example :
    authenticateWebhook (fun _ _ => []) "secret".data
      ⟨true, some "basic".data, some "un".data, some "pw".data, none⟩
      ⟨false, some ("u2".data, "p2".data), none, none, some "{}".data⟩ true =
    .ok ⟨false, some ⟨401, false, "Unauthorized".data⟩, false, false⟩ := by
  decide

/-- Claim C5, counterexample.  The claim that `authenticateWebhook`
never throws (or rejects) fails in two places.  First, under
`auth_type 'basic'`, a request carrying no `Authorization` header makes
`auth(req)` return `undefined`, so `creds.name` raises a `TypeError`
and the async function rejects — it does not respond 401 and return
false.  Second, under any auth type, a request whose body fails to
parse while no response object was supplied also rejects: `_getBody`
calls `_sendBodyError`, which dereferences `res` unconditionally. -/
theorem C5_webhook_auth_counterexample :
    authenticateWebhook (fun _ _ => []) "secret".data
      ⟨true, some "basic".data, some "un".data, some "pw".data, none⟩
      ⟨false, none, none, none, some "{}".data⟩ true =
    .error .typeError ∧
    authenticateWebhook (fun _ _ => []) "secret".data
      ⟨true, some "token".data, none, none, some "t".data⟩
      ⟨false, none, none, none, none⟩ false =
    .error .typeError := by
  constructor <;> decide

/-- Claim C5, amended.  For every HMAC function, secret, configuration
and request: provided that under `auth_type 'basic'` the request carries
parseable basic credentials (and that a response object is present
whenever the body failed to parse — the two corners where the code
raises a `TypeError`), `authenticateWebhook` never rejects; and whenever
it returns false on a request that had a parsed body and a
consumption-enabled config — i.e. on an authentication failure — it
responded 401 `{success:false, message:'Unauthorized'}` exactly when a
response object was supplied, did not invoke the continuation and did
not mark the request authenticated. -/
theorem C5_webhook_auth_amended (hmac : Str → Str → Str) (secret : Str)
    (conf : WebhookConfig) (req : WebhookRequest) (resPresent : Bool)
    (h1 : conf.auth_type = some "basic".data → req.basicCreds ≠ none)
    (h2 : req.body = none → resPresent = true) :
    (∃ r, authenticateWebhook hmac secret conf req resPresent = .ok r) ∧
    (∀ r, authenticateWebhook hmac secret conf req resPresent = .ok r →
      r.returned = false → req.body ≠ none → conf.can_consume = true →
      r.response = (if resPresent then
          some ⟨401, false, "Unauthorized".data⟩ else none) ∧
      r.nextCalled = false ∧ r.markAuthenticated = false) := by
  by_cases hflag : req.authenticatedFlag
  · have heq : authenticateWebhook hmac secret conf req resPresent =
        .ok ⟨true, none, true, false⟩ := by
      simp [authenticateWebhook, hflag]
    refine ⟨⟨_, heq⟩, fun r hr hret _ _ => ?_⟩
    have hrr := Except.ok.inj (heq.symm.trans hr)
    rw [← hrr] at hret
    simp at hret
  · cases hbody : req.body with
    | none =>
      have hres : resPresent = true := h2 hbody
      subst hres
      have heq : authenticateWebhook hmac secret conf req true =
          .ok ⟨false, some ⟨400, false, "Body parse error".data⟩,
            false, false⟩ := by
        simp [authenticateWebhook, hflag, hbody]
      refine ⟨⟨_, heq⟩, fun r hr hret hbody' _ => ?_⟩
      exact absurd rfl hbody'
    | some bodyStr =>
      by_cases hcons : conf.can_consume
      · have hauth :
            ∀ b : Bool,
              (if conf.auth_type = some "basic".data then
                match req.basicCreds with
                | none => Except.error JsError.typeError
                | some (n, p) =>
                  .ok (some n == conf.auth_user && some p == conf.auth_pass)
              else if conf.auth_type = some "token".data then
                .ok (req.xAuthToken == conf.auth_token)
              else if conf.auth_type = some "key_secret".data then
                .ok (req.xSignature == some (hmac secret bodyStr))
              else .ok true) = .ok b →
              (∃ r, authenticateWebhook hmac secret conf req resPresent =
                .ok r) ∧
              (∀ r, authenticateWebhook hmac secret conf req resPresent =
                  .ok r →
                r.returned = false → (some bodyStr : Option Str) ≠ none →
                conf.can_consume = true →
                r.response = (if resPresent then
                    some ⟨401, false, "Unauthorized".data⟩ else none) ∧
                r.nextCalled = false ∧ r.markAuthenticated = false) := by
          intro b hb
          cases b with
          | true =>
            have heq : authenticateWebhook hmac secret conf req resPresent =
                .ok ⟨true, none, true, true⟩ := by
              simp only [authenticateWebhook, hflag, Bool.false_eq_true,
                if_false, hbody, hcons, Bool.not_true]
              rw [hb]
            refine ⟨⟨_, heq⟩, fun r hr hret _ _ => ?_⟩
            have hrr := Except.ok.inj (heq.symm.trans hr)
            rw [← hrr] at hret
            simp at hret
          | false =>
            have heq : authenticateWebhook hmac secret conf req resPresent =
                .ok ⟨false,
                  if resPresent then some ⟨401, false, "Unauthorized".data⟩
                  else none, false, false⟩ := by
              simp only [authenticateWebhook, hflag, Bool.false_eq_true,
                if_false, hbody, hcons, Bool.not_true]
              rw [hb]
            refine ⟨⟨_, heq⟩, fun r hr _ _ _ => ?_⟩
            have hrr := Except.ok.inj (heq.symm.trans hr)
            rw [← hrr]
            exact ⟨rfl, rfl, rfl⟩
        by_cases hbasic : conf.auth_type = some "basic".data
        · obtain ⟨⟨n, p⟩, hcreds⟩ : ∃ c, req.basicCreds = some c := by
            cases hc : req.basicCreds with
            | none => exact absurd (h1 hbasic) (by simp [hc])
            | some c => exact ⟨c, rfl⟩
          exact hauth (some n == conf.auth_user && some p == conf.auth_pass)
            (by simp [hbasic, hcreds])
        · by_cases htok : conf.auth_type = some "token".data
          · exact hauth (req.xAuthToken == conf.auth_token)
              (by simp [hbasic, htok])
          · by_cases hks : conf.auth_type = some "key_secret".data
            · exact hauth (req.xSignature == some (hmac secret bodyStr))
                (by simp [hbasic, htok, hks])
            · exact hauth true (by simp [hbasic, htok, hks])
      · have heq : authenticateWebhook hmac secret conf req resPresent =
            .ok ⟨false,
              if resPresent then
                some ⟨400, false,
                  "This client does not have consumption enabled.".data⟩
              else none, false, false⟩ := by
          simp [authenticateWebhook, hflag, hbody, hcons]
        refine ⟨⟨_, heq⟩, fun r hr hret _ hcons' => ?_⟩
        exact absurd hcons' (by simpa using hcons)

/-- Witness for `C5_webhook_auth_amended`: wrong basic credentials with
a response object present yield the 401 Unauthorized response. -/
theorem C5_webhook_auth_amended_witness :
    ((⟨true, some "basic".data, some "un".data, some "pw".data, none⟩ :
        WebhookConfig).auth_type = some "basic".data →
      (⟨false, some ("u2".data, "p2".data), none, none, some "{}".data⟩ :
        WebhookRequest).basicCreds ≠ none) ∧
    ((⟨false, some ("u2".data, "p2".data), none, none, some "{}".data⟩ :
        WebhookRequest).body = none → true = true) ∧
    ((∃ r, authenticateWebhook (fun _ _ => []) "secret".data
        ⟨true, some "basic".data, some "un".data, some "pw".data, none⟩
        ⟨false, some ("u2".data, "p2".data), none, none, some "{}".data⟩
        true = .ok r) ∧
      (∀ r, authenticateWebhook (fun _ _ => []) "secret".data
          ⟨true, some "basic".data, some "un".data, some "pw".data, none⟩
          ⟨false, some ("u2".data, "p2".data), none, none, some "{}".data⟩
          true = .ok r →
        r.returned = false →
        (⟨false, some ("u2".data, "p2".data), none, none, some "{}".data⟩ :
          WebhookRequest).body ≠ none →
        (⟨true, some "basic".data, some "un".data, some "pw".data, none⟩ :
          WebhookConfig).can_consume = true →
        r.response = (if true then
            some ⟨401, false, "Unauthorized".data⟩ else none) ∧
        r.nextCalled = false ∧ r.markAuthenticated = false)) :=
  ⟨fun _ => by decide, fun _ => rfl,
    C5_webhook_auth_amended (fun _ _ => []) "secret".data
      ⟨true, some "basic".data, some "un".data, some "pw".data, none⟩
      ⟨false, some ("u2".data, "p2".data), none, none, some "{}".data⟩
      true (fun _ => by decide) (fun h => by simp at h)⟩


/-! ## Subscription registration (`on` / `fetchConfig`, src/lib/index.js lines 406-453 and 789-800)

The patched `on` tests `this.configured` and either queues the name on
the module-level `pendingChecks` array or validates it immediately via
`_validateTopic`.  `fetchConfig`'s success handler assigns
`this.config = data`, registers a `configured` listener (through the
same patched `on`, so the name `configured` itself is queued) that runs
`pendingChecks.forEach(this._validateTopic.bind(this))`, and emits
`configured`.  Nothing in the file ever assigns `this.configured`, and
the drain never empties `pendingChecks`. -/

/-- The registration-relevant client state: the `this.configured` flag
`on` tests, whether `this.config` has been replaced by fetched data, the
`pendingChecks` queue, and the names passed to `_validateTopic` in
order. -/
structure SubState where
  configured : Bool
  configLoaded : Bool
  pendingChecks : List Str
  validated : List Str
deriving DecidableEq, Repr

/-- State at construction: no config, nothing queued or validated and
`this.configured` undefined (falsy). -/
def initialSubState : SubState := ⟨false, false, [], []⟩

/-- The patched `PubSubClient.prototype.on` (lines 789-800):
`if (!this.configured) pendingChecks.push(name) else this._validateTopic(name)`. -/
def onRegister (st : SubState) (name : Str) : SubState :=
  if st.configured then { st with validated := st.validated ++ [name] }
  else { st with pendingChecks := st.pendingChecks ++ [name] }

/-- The success path of `fetchConfig` (lines 419-444): store the config,
register the `configured` handler (which goes through the patched `on`),
then emit `configured`, firing that handler, which validates every
queued name without clearing the queue.  No assignment to
`this.configured` exists anywhere in the file, so the flag is not
touched. -/
def configFetchSuccess (st : SubState) : SubState :=
  let st1 := { st with configLoaded := true }
  let st2 := onRegister st1 "configured".data
  { st2 with validated := st2.validated ++ st2.pendingChecks }

/-- Claim C9, the code evaluated at the failing trace.  A name
registered before the config arrives is indeed queued and validated
once when `configured` fires.  But because `this.configured` is never
assigned, a name registered after the config has arrived (and
`configured` has fired) is still pushed onto `pendingChecks` — it is
never validated at all, and the queue is never drained/emptied: the
immediate-validation branch of `on` is unreachable. -/
theorem C9_pending_checks_evaluation :
    -- a registration before config arrival is queued, then validated once
    (onRegister initialSubState "event:a.b".data).pendingChecks =
      ["event:a.b".data] ∧
    (configFetchSuccess
        (onRegister initialSubState "event:a.b".data)).validated.count
      "event:a.b".data = 1 ∧
    -- the flag driving the immediate-validation branch is still false
    (configFetchSuccess
        (onRegister initialSubState "event:a.b".data)).configured = false ∧
    -- a registration after config arrival is queued, not validated
    (onRegister
        (configFetchSuccess (onRegister initialSubState "event:a.b".data))
        "event:c.d".data).validated.count "event:c.d".data = 0 ∧
    (onRegister
        (configFetchSuccess (onRegister initialSubState "event:a.b".data))
        "event:c.d".data).pendingChecks =
      ["event:a.b".data, "configured".data, "event:c.d".data] := by
  decide


/-! ## Payload sanitizer over an explicit heap (`_sanitize`, src/lib/index.js lines 821-854)

`_sanitize` mutates an object graph in place, tracking visited objects
by identity in the `seen` array, so it is modelled over an explicit
store: addresses index a list of objects, each an insertion-ordered
field list.  `Date` and `RegExp` instances are modelled as immediate
values because the algorithm tests `instanceof` on them before the
object branch — their identity is never consulted and they never enter
`seen`.  Recursion is fuelled (one unit per processed key and per
descent), which only ever truncates a run; every frame lemma below holds
for all fuels, and concrete runs use ample fuel. -/

/-- A JS value in an object field. -/
inductive JVal where
  | undef
  | null
  | bool (b : Bool)
  | num (n : Int)
  | str (s : Str)
  | func
  | date
  | regexp (source : Str)
  | ref (a : Nat)
deriving DecidableEq, Repr

/-- An object: insertion-ordered field list. -/
abbrev JObj := List (Str × JVal)

/-- The heap: an address is an index into the list of objects. -/
abbrev Store := List JObj

/-- JS `typeof` of a stored value. -/
def jvalTypeof : JVal → Str
  | .undef => "undefined".data
  | .null => "object".data
  | .bool _ => "boolean".data
  | .num _ => "number".data
  | .str _ => "string".data
  | .func => "function".data
  | .date => "object".data
  | .regexp _ => "object".data
  | .ref _ => "object".data

/-- JS truthiness of a stored value. -/
def jvalTruthy : JVal → Bool
  | .undef => false
  | .null => false
  | .bool b => b
  | .num n => n != 0
  | .str s => !s.isEmpty
  | .func => true
  | .date => true
  | .regexp _ => true
  | .ref _ => true

/-- The redaction test `/^(password|creditcard)/.test(key)`:
case-sensitive prefix match. -/
def isPrivateKey (k : Str) : Bool :=
  "password".data.isPrefixOf k || "creditcard".data.isPrefixOf k

/-- `obj[key]`: the first field with the key, `undefined` when absent. -/
def readKey : JObj → Str → JVal
  | [], _ => .undef
  | (k', v) :: rest, k => if k' = k then v else readKey rest k

/-- `obj[key] = v`: replace the field in place, or append it. -/
def writeKey : JObj → Str → JVal → JObj
  | [], k, v => [(k, v)]
  | (k', v') :: rest, k, v =>
    if k' = k then (k, v) :: rest else (k', v') :: writeKey rest k v

/-- `delete obj[key]`. -/
def delKey (o : JObj) (k : Str) : JObj :=
  o.filter fun kv => kv.1 ≠ k

/-- The object at an address (dangling reads give the empty object;
never exercised on the runs stated below). -/
def getObj (st : Store) (a : Nat) : JObj :=
  (st.get? a).getD []

/-- Replace the object at an address. -/
def setObj (st : Store) (a : Nat) (o : JObj) : Store :=
  st.set a o

/-- Write one field of the object at an address. -/
def storeWrite (st : Store) (a : Nat) (k : Str) (v : JVal) : Store :=
  setObj st a (writeKey (getObj st a) k v)

/-- Delete one field of the object at an address. -/
def storeDel (st : Store) (a : Nat) (k : Str) : Store :=
  setObj st a (delKey (getObj st a) k)

/-- The `Object.keys(obj).forEach` loop of `_sanitize`, processing the
captured key list of the object at `a`.  Per key, in source order:
function-typed values are deleted; keys matching the `password` /
`creditcard` prefix are overwritten with `'[HIDDEN]'`; `Date` values are
left alone; `RegExp` values are replaced by their source; a truthy
`typeof 'object'` value (here only a reference) is replaced by
`'[Circular]'` when already in `seen`, otherwise pushed onto `seen`,
recursively sanitized, and written back.  Fuel decreases on every step
so the function is structurally recursive and kernel-evaluable. -/
def sanitizeKeys : Nat → Store → List Nat → Nat → List Str → Store × List Nat
  | 0, st, seen, _, _ => (st, seen)
  | _ + 1, st, seen, _, [] => (st, seen)
  | fuel + 1, st, seen, a, k :: rest =>
    let v := readKey (getObj st a) k
    let next : Store × List Nat :=
      if jvalTypeof v = "function".data then (storeDel st a k, seen)
      else if isPrivateKey k then
        (storeWrite st a k (.str "[HIDDEN]".data), seen)
      else
        match v with
        | .date => (st, seen)
        | .regexp src => (storeWrite st a k (.str src), seen)
        | .ref b =>
          if seen.contains b then
            (storeWrite st a k (.str "[Circular]".data), seen)
          else
            let inner :=
              sanitizeKeys fuel st (seen ++ [b]) b ((getObj st b).map Prod.fst)
            (storeWrite inner.1 a k (.ref b), inner.2)
        | _ => (st, seen)
    sanitizeKeys fuel next.1 next.2 a rest

/-- `_sanitize(obj, seen)`: primitives and falsy values pass through, a
`RegExp` becomes its source string, a `Date` is returned as is, and an
object reference has its captured keys processed in place and is
returned itself. -/
def _sanitize (fuel : Nat) (st : Store) (seen : List Nat) (v : JVal) :
    Store × List Nat × JVal :=
  if jvalTruthy v = false ∨ jvalTypeof v ≠ "object".data then (st, seen, v)
  else
    match v with
    | .regexp src => (st, seen, .str src)
    | .date => (st, seen, .date)
    | .ref a =>
      let r := sanitizeKeys fuel st seen a ((getObj st a).map Prod.fst)
      (r.1, r.2, .ref a)
    | _ => (st, seen, v)

example :
    _sanitize 9 [[("password".data, JVal.str "p".data),
                  ("user".data, JVal.str "u".data)]] [] (.ref 0) =
    ([[("password".data, JVal.str "[HIDDEN]".data),
       ("user".data, JVal.str "u".data)]], [], .ref 0) := by decide
example :
    _sanitize 9 [[("fn".data, JVal.func)]] [] (.ref 0) =
    ([[]], [], .ref 0) := by decide
example :
    -- a two-object cycle: 0.x = ref 1, 1.parent = ref 0; the cycle is
    -- detected on re-reaching 1 and '[Circular]' written at (0, x) by
    -- the inner visit, but the outer write re-installs the reference
    _sanitize 9 [[("x".data, JVal.ref 1)], [("parent".data, JVal.ref 0)]]
      [] (.ref 0) =
    ([[("x".data, JVal.ref 1)], [("parent".data, JVal.ref 0)]],
      [1, 0], .ref 0) := by decide

/-- The string `JSON.stringify` produces for a `Date` (its `toJSON`
value; the concrete text is irrelevant to every property stated). -/
def dateJson : Str := "1970-01-01T00:00:00.000Z".data

/-- `JSON.parse(JSON.stringify(-))` of a field list: `undefined` and
function fields are dropped, a `Date` serialises to its string, a
`RegExp` to an empty object, and nested objects are cloned bottom-up
into fresh addresses appended to the store; a cyclic graph exhausts any
fuel, modelling the `TypeError` `JSON.stringify` raises on cycles. -/
def jsonCloneFields : Nat → Store → JObj → Option (Store × JObj)
  | 0, _, _ => none
  | _ + 1, st, [] => some (st, [])
  | fuel + 1, st, (k, v) :: rest =>
    match v with
    | .undef => jsonCloneFields fuel st rest
    | .func => jsonCloneFields fuel st rest
    | .ref b =>
      match jsonCloneFields fuel st (getObj st b) with
      | none => none
      | some (st1, childFields) =>
        match jsonCloneFields fuel (st1 ++ [childFields]) rest with
        | none => none
        | some (st2, fs) => some (st2, (k, .ref st1.length) :: fs)
    | .regexp _ =>
      match jsonCloneFields fuel (st ++ [([] : JObj)]) rest with
      | none => none
      | some (st2, fs) => some (st2, (k, .ref st.length) :: fs)
    | .date =>
      match jsonCloneFields fuel st rest with
      | none => none
      | some (st2, fs) => some (st2, (k, .str dateJson) :: fs)
    | w =>
      match jsonCloneFields fuel st rest with
      | none => none
      | some (st2, fs) => some (st2, (k, w) :: fs)

/-- `JSON.parse(JSON.stringify(v))` of a single value. -/
def jsonCloneVal (fuel : Nat) (st : Store) (v : JVal) :
    Option (Store × JVal) :=
  match v with
  | .ref a =>
    match jsonCloneFields fuel st (getObj st a) with
    | none => none
    | some (st1, fields) => some (st1 ++ [fields], .ref st1.length)
  | .null => some (st, .null)
  | .bool b => some (st, .bool b)
  | .num n => some (st, .num n)
  | .str s => some (st, .str s)
  | .date => some (st, .str dateJson)
  | .regexp _ => some (st ++ [([] : JObj)], .ref st.length)
  | _ => none

/-- The clone step of `publish`:
`JSON.parse(JSON.stringify(data || {}))` — a falsy `data` clones a fresh
empty object. -/
def publishClone (fuel : Nat) (st : Store) (data : JVal) :
    Option (Store × JVal) :=
  if jvalTruthy data then jsonCloneVal fuel st data
  else some (st ++ [([] : JObj)], .ref st.length)

/-- The data path of `publish` (lines 544-562): clone the caller's data
(a failed clone throws `'data could not be parsed'` before anything is
mutated), then run `_sanitize(clone, [])` and send the result. -/
def publishDataPipeline (cloneFuel sanitizeFuel : Nat) (st : Store)
    (data : JVal) : Option (Store × JVal) :=
  match publishClone cloneFuel st data with
  | none => none
  | some (st1, v1) =>
    let r := _sanitize sanitizeFuel st1 [] v1
    some (r.1, r.2.2)

example :
    publishDataPipeline 9 9 [[("password".data, JVal.str "p".data)]]
      (.ref 0) =
    some ([[("password".data, JVal.str "p".data)],
           [("password".data, JVal.str "[HIDDEN]".data)]], .ref 1) := by
  decide


/-! ### Frame lemmas for the sanitizer and the clone

`sanitize` only ever writes through the object it was handed and the
objects reachable from it; the clone only appends fresh objects.  Both
facts are captured with a region invariant: all addresses at or above a
base `n` form a closed region (their references stay at or above `n`),
and both operations preserve every address below `n` untouched. -/

/-- Every reference stored in the fields of `o` points at or above `n`. -/
def objRefsGe (n : Nat) (o : JObj) : Prop :=
  ∀ kv ∈ o, ∀ b, kv.2 = JVal.ref b → n ≤ b

/-- The store region at and above `n` references only itself. -/
def highClosed (n : Nat) (st : Store) : Prop :=
  ∀ j o, n ≤ j → st.get? j = some o → objRefsGe n o

lemma highClosed_of_length_le (n : Nat) (st : Store) (h : st.length ≤ n) :
    highClosed n st := by
  intro j o hj hget
  exfalso
  rw [List.get?_eq_none.mpr (le_trans h hj)] at hget
  exact Option.noConfusion hget

lemma readKey_eq_undef_or_mem (o : JObj) (k : Str) :
    readKey o k = JVal.undef ∨ (k, readKey o k) ∈ o := by
  induction o with
  | nil => exact Or.inl rfl
  | cons kv rest ih =>
    obtain ⟨k', v'⟩ := kv
    by_cases hk : k' = k
    · subst hk
      simp [readKey]
    · rcases ih with h | h
      · exact Or.inl (by simpa [readKey, hk] using h)
      · refine Or.inr ?_
        simp only [readKey, hk, if_false]
        exact List.mem_cons_of_mem _ h

lemma writeKey_mem (o : JObj) (k : Str) (v : JVal) :
    ∀ kv ∈ writeKey o k v, kv ∈ o ∨ kv = (k, v) := by
  induction o with
  | nil => intro kv h; simpa [writeKey] using h
  | cons kv' rest ih =>
    intro kv h
    obtain ⟨k', v'⟩ := kv'
    by_cases hk : k' = k
    · subst hk
      simp only [writeKey, if_pos rfl] at h
      rcases List.mem_cons.mp h with rfl | h
      · exact Or.inr rfl
      · exact Or.inl (List.mem_cons_of_mem _ h)
    · simp only [writeKey, hk, if_false] at h
      rcases List.mem_cons.mp h with rfl | h
      · exact Or.inl (List.mem_cons_self _ _)
      · rcases ih kv h with h' | h'
        · exact Or.inl (List.mem_cons_of_mem _ h')
        · exact Or.inr h'

lemma delKey_mem (o : JObj) (k : Str) :
    ∀ kv ∈ delKey o k, kv ∈ o := by
  intro kv h
  exact List.mem_of_mem_filter h

lemma readKey_writeKey (o : JObj) (k : Str) (v : JVal) :
    readKey (writeKey o k v) k = v := by
  induction o with
  | nil => simp [writeKey, readKey]
  | cons kv rest ih =>
    obtain ⟨k', v'⟩ := kv
    by_cases hk : k' = k
    · subst hk
      simp [writeKey, readKey]
    · simp [writeKey, readKey, hk, ih]

lemma readKey_delKey (o : JObj) (k : Str) :
    readKey (delKey o k) k = JVal.undef := by
  induction o with
  | nil => simp [delKey, readKey]
  | cons kv rest ih =>
    obtain ⟨k', v'⟩ := kv
    by_cases hk : k' = k
    · subst hk
      simpa [delKey, readKey] using ih
    · simpa [delKey, readKey, hk] using ih

lemma objRefsGe_writeKey (n : Nat) (o : JObj) (k : Str) (v : JVal)
    (h : objRefsGe n o) (hv : ∀ b, v = JVal.ref b → n ≤ b) :
    objRefsGe n (writeKey o k v) := by
  intro kv hkv b hb
  rcases writeKey_mem o k v kv hkv with hm | hm
  · exact h kv hm b hb
  · exact hv b (by rw [hm] at hb; exact hb)

lemma objRefsGe_delKey (n : Nat) (o : JObj) (k : Str) (h : objRefsGe n o) :
    objRefsGe n (delKey o k) := by
  intro kv hkv b hb
  exact h kv (delKey_mem o k kv hkv) b hb

lemma getObj_objRefsGe (n : Nat) (st : Store) (a : Nat)
    (h : highClosed n st) (ha : n ≤ a) : objRefsGe n (getObj st a) := by
  cases hget : st.get? a with
  | none =>
    intro kv hkv b hb
    simp only [getObj, hget, Option.getD_none] at hkv
    exact absurd hkv (List.not_mem_nil kv)
  | some o =>
    have h2 := h a o ha hget
    simpa only [getObj, hget, Option.getD_some] using h2

lemma setObj_get?_ne (st : Store) (a j : Nat) (o : JObj) (h : j ≠ a) :
    (setObj st a o).get? j = st.get? j :=
  List.get?_set_ne o st (Ne.symm h)

lemma highClosed_setObj (n : Nat) (st : Store) (a : Nat) (o : JObj)
    (h : highClosed n st) (ho : objRefsGe n o) :
    highClosed n (setObj st a o) := by
  intro j o' hj hget
  by_cases hja : j = a
  · subst hja
    rw [show (setObj st j o).get? j = (fun _ => o) <$> st.get? j from
      List.get?_set_eq o j st] at hget
    cases hst : st.get? j with
    | none => rw [hst] at hget; exact Option.noConfusion hget
    | some x =>
      rw [hst] at hget
      have : o = o' := by simpa using hget
      exact this ▸ ho
  · rw [setObj_get?_ne st a j o hja] at hget
    exact h j o' hj hget

lemma highClosed_append_one (n : Nat) (st : Store) (o : JObj)
    (h : highClosed n st) (ho : objRefsGe n o) :
    highClosed n (st ++ [o]) := by
  intro j o' hj hget
  rcases Nat.lt_or_ge j st.length with hlt | hge
  · rw [List.get?_append hlt] at hget
    exact h j o' hj hget
  · rcases Nat.lt_or_ge j (st.length + 1) with hlt1 | hge1
    · have hj' : j = st.length := by omega
      subst hj'
      rw [List.get?_concat_length] at hget
      have : o = o' := by simpa using hget
      exact this ▸ ho
    · exfalso
      rw [List.get?_eq_none.mpr (by simpa using hge1)] at hget
      exact Option.noConfusion hget

lemma storeWrite_get?_ne (st : Store) (a j : Nat) (k : Str) (v : JVal)
    (h : j ≠ a) : (storeWrite st a k v).get? j = st.get? j :=
  setObj_get?_ne st a j _ h

lemma storeDel_get?_ne (st : Store) (a j : Nat) (k : Str) (h : j ≠ a) :
    (storeDel st a k).get? j = st.get? j :=
  setObj_get?_ne st a j _ h

lemma highClosed_storeWrite (n : Nat) (st : Store) (a : Nat) (k : Str)
    (v : JVal) (h : highClosed n st) (ha : n ≤ a)
    (hv : ∀ b, v = JVal.ref b → n ≤ b) :
    highClosed n (storeWrite st a k v) :=
  highClosed_setObj n st a _ h
    (objRefsGe_writeKey n _ k v (getObj_objRefsGe n st a h ha) hv)

lemma highClosed_storeDel (n : Nat) (st : Store) (a : Nat) (k : Str)
    (h : highClosed n st) (ha : n ≤ a) :
    highClosed n (storeDel st a k) :=
  highClosed_setObj n st a _ h
    (objRefsGe_delKey n _ k (getObj_objRefsGe n st a h ha))


lemma sanitizeKeys_nil (fuel : Nat) (st : Store) (seen : List Nat) (a : Nat) :
    sanitizeKeys fuel st seen a [] = (st, seen) := by
  cases fuel <;> rfl

/-- The sanitizer's frame property: handed an object at address `a ≥ n`
in a store whose region at and above `n` is closed, `sanitizeKeys`
leaves every address below `n` untouched and keeps the region closed —
its writes are strings or references it read back out of the region. -/
lemma sanitizeKeys_frame (fuel : Nat) :
    ∀ (st : Store) (seen : List Nat) (a : Nat) (keys : List Str) (n : Nat),
      n ≤ a → highClosed n st →
      (∀ j, j < n →
        (sanitizeKeys fuel st seen a keys).1.get? j = st.get? j) ∧
      highClosed n (sanitizeKeys fuel st seen a keys).1 := by
  induction fuel with
  | zero =>
    intro st seen a keys n ha hst
    exact ⟨fun j hj => rfl, hst⟩
  | succ fuel ih =>
    intro st seen a keys n ha hst
    cases keys with
    | nil => exact ⟨fun j hj => by rw [sanitizeKeys_nil], by
        rw [sanitizeKeys_nil]; exact hst⟩
    | cons k rest =>
      have hstep :
          ∃ st' seen',
            sanitizeKeys (fuel + 1) st seen a (k :: rest) =
              sanitizeKeys fuel st' seen' a rest ∧
            (∀ j, j < n → st'.get? j = st.get? j) ∧
            highClosed n st' := by
        by_cases hfn :
            jvalTypeof (readKey (getObj st a) k) = "function".data
        · refine ⟨storeDel st a k, seen, ?_, ?_, ?_⟩
          · simp only [sanitizeKeys, hfn, if_pos rfl]
            simp [hfn]
          · exact fun j hj => storeDel_get?_ne st a j k (by omega)
          · exact highClosed_storeDel n st a k hst ha
        · by_cases hpk : isPrivateKey k = true
          · refine ⟨storeWrite st a k (.str "[HIDDEN]".data), seen, ?_, ?_, ?_⟩
            · simp [sanitizeKeys, hfn, hpk]
            · exact fun j hj => storeWrite_get?_ne st a j k _ (by omega)
            · exact highClosed_storeWrite n st a k _ hst ha (by intro b hb; cases hb)
          · cases hv : readKey (getObj st a) k with
            | date =>
              exact ⟨st, seen,
                by simp +decide [sanitizeKeys, hfn, hpk, hv, jvalTypeof],
                fun j hj => rfl, hst⟩
            | regexp src =>
              refine ⟨storeWrite st a k (.str src), seen,
                by simp +decide [sanitizeKeys, hfn, hpk, hv, jvalTypeof],
                ?_, ?_⟩
              · exact fun j hj => storeWrite_get?_ne st a j k _ (by omega)
              · exact highClosed_storeWrite n st a k _ hst ha
                  (by intro b hb; cases hb)
            | ref b =>
              have hb : n ≤ b := by
                rcases readKey_eq_undef_or_mem (getObj st a) k with h0 | h0
                · rw [hv] at h0; cases h0
                · rw [hv] at h0
                  exact getObj_objRefsGe n st a hst ha (k, .ref b) h0 b rfl
              by_cases hseen : seen.contains b
              · have hmem : b ∈ seen := List.elem_iff.mp hseen
                refine ⟨storeWrite st a k (.str "[Circular]".data), seen,
                  by simp +decide [sanitizeKeys, hfn, hpk, hv, hmem,
                    jvalTypeof], ?_, ?_⟩
                · exact fun j hj => storeWrite_get?_ne st a j k _ (by omega)
                · exact highClosed_storeWrite n st a k _ hst ha
                    (by intro b' hb'; cases hb')
              · have hmem : b ∉ seen := fun h => hseen (List.elem_iff.mpr h)
                obtain ⟨ihf, ihc⟩ :=
                  ih st (seen ++ [b]) b ((getObj st b).map Prod.fst) n hb hst
                refine ⟨storeWrite
                    (sanitizeKeys fuel st (seen ++ [b]) b
                      ((getObj st b).map Prod.fst)).1 a k (.ref b),
                  (sanitizeKeys fuel st (seen ++ [b]) b
                    ((getObj st b).map Prod.fst)).2,
                  by simp +decide [sanitizeKeys, hfn, hpk, hv, hmem,
                    jvalTypeof], ?_, ?_⟩
                · intro j hj
                  rw [storeWrite_get?_ne _ a j k _ (by omega)]
                  exact ihf j hj
                · exact highClosed_storeWrite n _ a k _ ihc ha
                    (by intro b' hb'; injection hb' with h'; omega)
            | undef =>
              exact ⟨st, seen,
                by simp +decide [sanitizeKeys, hfn, hpk, hv, jvalTypeof],
                fun j hj => rfl, hst⟩
            | null =>
              exact ⟨st, seen,
                by simp +decide [sanitizeKeys, hfn, hpk, hv, jvalTypeof],
                fun j hj => rfl, hst⟩
            | bool bb =>
              exact ⟨st, seen,
                by simp +decide [sanitizeKeys, hfn, hpk, hv, jvalTypeof],
                fun j hj => rfl, hst⟩
            | num nn =>
              exact ⟨st, seen,
                by simp +decide [sanitizeKeys, hfn, hpk, hv, jvalTypeof],
                fun j hj => rfl, hst⟩
            | str ss =>
              exact ⟨st, seen,
                by simp +decide [sanitizeKeys, hfn, hpk, hv, jvalTypeof],
                fun j hj => rfl, hst⟩
            | func =>
              exact absurd (by rw [hv]; rfl) hfn
      obtain ⟨st', seen', heq, hframe, hclosed⟩ := hstep
      rw [heq]
      obtain ⟨ihf, ihc⟩ := ih st' seen' a rest n ha hclosed
      exact ⟨fun j hj => (ihf j hj).trans (hframe j hj), ihc⟩


/-- The clone only appends: a successful `jsonCloneFields` run extends
the store, keeps the region at and above `n` closed, and produces fields
whose references all point at or above `n` (they are freshly
allocated). -/
lemma jsonCloneFields_spec (fuel : Nat) :
    ∀ (st : Store) (o : JObj) (st1 : Store) (fs : JObj) (n : Nat),
      jsonCloneFields fuel st o = some (st1, fs) → n ≤ st.length →
      highClosed n st →
      (∃ Δ, st1 = st ++ Δ) ∧ highClosed n st1 ∧ objRefsGe n fs := by
  induction fuel with
  | zero =>
    intro st o st1 fs n h
    exact absurd h (by simp [jsonCloneFields])
  | succ fuel ih =>
    intro st o st1 fs n h hn hst
    cases o with
    | nil =>
      simp only [jsonCloneFields, Option.some.injEq, Prod.mk.injEq] at h
      obtain ⟨h1, h2⟩ := h
      subst h1
      subst h2
      exact ⟨⟨[], by simp⟩, hst, fun kv hkv b hb => absurd hkv (List.not_mem_nil kv)⟩
    | cons kv rest =>
      obtain ⟨k, v⟩ := kv
      cases v with
      | undef =>
        exact ih st rest st1 fs n (by simpa [jsonCloneFields] using h) hn hst
      | func =>
        exact ih st rest st1 fs n (by simpa [jsonCloneFields] using h) hn hst
      | ref b =>
        cases hchild : jsonCloneFields fuel st (getObj st b) with
        | none =>
          rw [show jsonCloneFields (fuel + 1) st ((k, JVal.ref b) :: rest) =
              none by simp [jsonCloneFields, hchild]] at h
          exact Option.noConfusion h
        | some p =>
          obtain ⟨stc, cf⟩ := p
          obtain ⟨⟨d1, hd1⟩, hc1, hr1⟩ := ih st (getObj st b) stc cf n hchild hn hst
          have hlen1 : st.length ≤ stc.length := by
            subst hd1; simp
          have hc1' : highClosed n (stc ++ [cf]) :=
            highClosed_append_one n stc cf hc1 hr1
          cases hrest : jsonCloneFields fuel (stc ++ [cf]) rest with
          | none =>
            rw [show jsonCloneFields (fuel + 1) st ((k, JVal.ref b) :: rest) =
                none by simp [jsonCloneFields, hchild, hrest]] at h
            exact Option.noConfusion h
          | some q =>
            obtain ⟨st2, fs2⟩ := q
            obtain ⟨⟨d2, hd2⟩, hc2, hr2⟩ :=
              ih (stc ++ [cf]) rest st2 fs2 n hrest
                (by simp; omega) hc1'
            rw [show jsonCloneFields (fuel + 1) st ((k, JVal.ref b) :: rest) =
                some (st2, (k, JVal.ref stc.length) :: fs2) by
              simp [jsonCloneFields, hchild, hrest]] at h
            simp only [Option.some.injEq, Prod.mk.injEq] at h
            obtain ⟨h1, h2⟩ := h
            subst h1
            subst h2
            refine ⟨⟨d1 ++ [cf] ++ d2, by rw [hd2, hd1]; simp⟩, hc2, ?_⟩
            intro kv hkv b' hb'
            rcases List.mem_cons.mp hkv with rfl | hkv'
            · have : b' = stc.length := by
                injection hb' with h'
                omega
              omega
            · exact hr2 kv hkv' b' hb'
      | regexp src =>
        have hc' : highClosed n (st ++ [[]]) :=
          highClosed_append_one n st [] hst
            (fun kv hkv b hb => absurd hkv (List.not_mem_nil kv))
        cases hrest : jsonCloneFields fuel (st ++ [([] : JObj)]) rest with
        | none =>
          rw [show jsonCloneFields (fuel + 1) st ((k, JVal.regexp src) :: rest) =
              none by simp [jsonCloneFields, hrest]] at h
          exact Option.noConfusion h
        | some q =>
          obtain ⟨st2, fs2⟩ := q
          obtain ⟨⟨d2, hd2⟩, hc2, hr2⟩ :=
            ih (st ++ [([] : JObj)]) rest st2 fs2 n hrest (by simp; omega) hc'
          rw [show jsonCloneFields (fuel + 1) st ((k, JVal.regexp src) :: rest) =
              some (st2, (k, JVal.ref st.length) :: fs2) by
            simp [jsonCloneFields, hrest]] at h
          simp only [Option.some.injEq, Prod.mk.injEq] at h
          obtain ⟨h1, h2⟩ := h
          subst h1
          subst h2
          refine ⟨⟨[[]] ++ d2, by rw [hd2]; simp⟩, hc2, ?_⟩
          intro kv hkv b' hb'
          rcases List.mem_cons.mp hkv with rfl | hkv'
          · injection hb' with h'
            omega
          · exact hr2 kv hkv' b' hb'
      | date =>
        cases hrest : jsonCloneFields fuel st rest with
        | none =>
          rw [show jsonCloneFields (fuel + 1) st ((k, JVal.date) :: rest) =
              none by simp [jsonCloneFields, hrest]] at h
          exact Option.noConfusion h
        | some q =>
          obtain ⟨st2, fs2⟩ := q
          obtain ⟨⟨d2, hd2⟩, hc2, hr2⟩ := ih st rest st2 fs2 n hrest hn hst
          rw [show jsonCloneFields (fuel + 1) st ((k, JVal.date) :: rest) =
              some (st2, (k, JVal.str dateJson) :: fs2) by
            simp [jsonCloneFields, hrest]] at h
          simp only [Option.some.injEq, Prod.mk.injEq] at h
          obtain ⟨h1, h2⟩ := h
          subst h1
          subst h2
          refine ⟨⟨d2, hd2⟩, hc2, ?_⟩
          intro kv hkv b' hb'
          rcases List.mem_cons.mp hkv with rfl | hkv'
          · cases hb'
          · exact hr2 kv hkv' b' hb'
      | null =>
        cases hrest : jsonCloneFields fuel st rest with
        | none =>
          rw [show jsonCloneFields (fuel + 1) st ((k, JVal.null) :: rest) =
              none by simp [jsonCloneFields, hrest]] at h
          exact Option.noConfusion h
        | some q =>
          obtain ⟨st2, fs2⟩ := q
          obtain ⟨⟨d2, hd2⟩, hc2, hr2⟩ := ih st rest st2 fs2 n hrest hn hst
          rw [show jsonCloneFields (fuel + 1) st ((k, JVal.null) :: rest) =
              some (st2, (k, JVal.null) :: fs2) by
            simp [jsonCloneFields, hrest]] at h
          simp only [Option.some.injEq, Prod.mk.injEq] at h
          obtain ⟨h1, h2⟩ := h
          subst h1
          subst h2
          refine ⟨⟨d2, hd2⟩, hc2, ?_⟩
          intro kv hkv b' hb'
          rcases List.mem_cons.mp hkv with rfl | hkv'
          · cases hb'
          · exact hr2 kv hkv' b' hb'
      | bool bb =>
        cases hrest : jsonCloneFields fuel st rest with
        | none =>
          rw [show jsonCloneFields (fuel + 1) st ((k, JVal.bool bb) :: rest) =
              none by simp [jsonCloneFields, hrest]] at h
          exact Option.noConfusion h
        | some q =>
          obtain ⟨st2, fs2⟩ := q
          obtain ⟨⟨d2, hd2⟩, hc2, hr2⟩ := ih st rest st2 fs2 n hrest hn hst
          rw [show jsonCloneFields (fuel + 1) st ((k, JVal.bool bb) :: rest) =
              some (st2, (k, JVal.bool bb) :: fs2) by
            simp [jsonCloneFields, hrest]] at h
          simp only [Option.some.injEq, Prod.mk.injEq] at h
          obtain ⟨h1, h2⟩ := h
          subst h1
          subst h2
          refine ⟨⟨d2, hd2⟩, hc2, ?_⟩
          intro kv hkv b' hb'
          rcases List.mem_cons.mp hkv with rfl | hkv'
          · cases hb'
          · exact hr2 kv hkv' b' hb'
      | num nn =>
        cases hrest : jsonCloneFields fuel st rest with
        | none =>
          rw [show jsonCloneFields (fuel + 1) st ((k, JVal.num nn) :: rest) =
              none by simp [jsonCloneFields, hrest]] at h
          exact Option.noConfusion h
        | some q =>
          obtain ⟨st2, fs2⟩ := q
          obtain ⟨⟨d2, hd2⟩, hc2, hr2⟩ := ih st rest st2 fs2 n hrest hn hst
          rw [show jsonCloneFields (fuel + 1) st ((k, JVal.num nn) :: rest) =
              some (st2, (k, JVal.num nn) :: fs2) by
            simp [jsonCloneFields, hrest]] at h
          simp only [Option.some.injEq, Prod.mk.injEq] at h
          obtain ⟨h1, h2⟩ := h
          subst h1
          subst h2
          refine ⟨⟨d2, hd2⟩, hc2, ?_⟩
          intro kv hkv b' hb'
          rcases List.mem_cons.mp hkv with rfl | hkv'
          · cases hb'
          · exact hr2 kv hkv' b' hb'
      | str ss =>
        cases hrest : jsonCloneFields fuel st rest with
        | none =>
          rw [show jsonCloneFields (fuel + 1) st ((k, JVal.str ss) :: rest) =
              none by simp [jsonCloneFields, hrest]] at h
          exact Option.noConfusion h
        | some q =>
          obtain ⟨st2, fs2⟩ := q
          obtain ⟨⟨d2, hd2⟩, hc2, hr2⟩ := ih st rest st2 fs2 n hrest hn hst
          rw [show jsonCloneFields (fuel + 1) st ((k, JVal.str ss) :: rest) =
              some (st2, (k, JVal.str ss) :: fs2) by
            simp [jsonCloneFields, hrest]] at h
          simp only [Option.some.injEq, Prod.mk.injEq] at h
          obtain ⟨h1, h2⟩ := h
          subst h1
          subst h2
          refine ⟨⟨d2, hd2⟩, hc2, ?_⟩
          intro kv hkv b' hb'
          rcases List.mem_cons.mp hkv with rfl | hkv'
          · cases hb'
          · exact hr2 kv hkv' b' hb'


/-- A successful single-value clone extends the store, keeps the region
at and above `n` closed, and — when it returns a reference — that
reference is freshly allocated at or above the original store length. -/
lemma jsonCloneVal_spec (fuel : Nat) (st : Store) (v : JVal) (st1 : Store)
    (v1 : JVal) (n : Nat) (h : jsonCloneVal fuel st v = some (st1, v1))
    (hn : n ≤ st.length) (hst : highClosed n st) :
    (∃ d, st1 = st ++ d) ∧ highClosed n st1 ∧
    (∀ b, v1 = JVal.ref b → st.length ≤ b) := by
  cases v with
  | ref a =>
    cases hf : jsonCloneFields fuel st (getObj st a) with
    | none =>
      rw [show jsonCloneVal fuel st (JVal.ref a) = none by
        simp [jsonCloneVal, hf]] at h
      exact Option.noConfusion h
    | some p =>
      obtain ⟨stc, fields⟩ := p
      obtain ⟨⟨d1, hd1⟩, hc1, hr1⟩ :=
        jsonCloneFields_spec fuel st (getObj st a) stc fields n hf hn hst
      rw [show jsonCloneVal fuel st (JVal.ref a) =
          some (stc ++ [fields], JVal.ref stc.length) by
        simp [jsonCloneVal, hf]] at h
      simp only [Option.some.injEq, Prod.mk.injEq] at h
      obtain ⟨h1, h2⟩ := h
      subst h1
      subst h2
      refine ⟨⟨d1 ++ [fields], by rw [hd1]; simp⟩,
        highClosed_append_one n stc fields hc1 hr1, ?_⟩
      intro b hb
      injection hb with h'
      subst h'
      rw [hd1]
      simp
  | null =>
    simp only [jsonCloneVal, Option.some.injEq, Prod.mk.injEq] at h
    obtain ⟨h1, h2⟩ := h
    subst h1
    subst h2
    exact ⟨⟨[], by simp⟩, hst, fun b hb => by cases hb⟩
  | bool bb =>
    simp only [jsonCloneVal, Option.some.injEq, Prod.mk.injEq] at h
    obtain ⟨h1, h2⟩ := h
    subst h1
    subst h2
    exact ⟨⟨[], by simp⟩, hst, fun b hb => by cases hb⟩
  | num nn =>
    simp only [jsonCloneVal, Option.some.injEq, Prod.mk.injEq] at h
    obtain ⟨h1, h2⟩ := h
    subst h1
    subst h2
    exact ⟨⟨[], by simp⟩, hst, fun b hb => by cases hb⟩
  | str ss =>
    simp only [jsonCloneVal, Option.some.injEq, Prod.mk.injEq] at h
    obtain ⟨h1, h2⟩ := h
    subst h1
    subst h2
    exact ⟨⟨[], by simp⟩, hst, fun b hb => by cases hb⟩
  | date =>
    simp only [jsonCloneVal, Option.some.injEq, Prod.mk.injEq] at h
    obtain ⟨h1, h2⟩ := h
    subst h1
    subst h2
    exact ⟨⟨[], by simp⟩, hst, fun b hb => by cases hb⟩
  | regexp src =>
    simp only [jsonCloneVal, Option.some.injEq, Prod.mk.injEq] at h
    obtain ⟨h1, h2⟩ := h
    subst h1
    subst h2
    refine ⟨⟨[[]], rfl⟩,
      highClosed_append_one n st [] hst
        (fun kv hkv b hb => absurd hkv (List.not_mem_nil kv)), ?_⟩
    intro b hb
    injection hb with h'
    omega
  | undef => exact absurd h (by simp [jsonCloneVal])
  | func => exact absurd h (by simp [jsonCloneVal])

/-- The clone step of `publish` extends the store, keeps the fresh
region closed, and returns either a primitive or a freshly allocated
reference. -/
lemma publishClone_spec (fuel : Nat) (st : Store) (data : JVal)
    (st1 : Store) (v1 : JVal)
    (h : publishClone fuel st data = some (st1, v1)) :
    (∃ d, st1 = st ++ d) ∧ highClosed st.length st1 ∧
    (∀ b, v1 = JVal.ref b → st.length ≤ b) := by
  by_cases ht : jvalTruthy data = true
  · exact jsonCloneVal_spec fuel st data st1 v1 st.length
      (by simpa [publishClone, ht] using h) le_rfl
      (highClosed_of_length_le st.length st le_rfl)
  · rw [show publishClone fuel st data =
        some (st ++ [[]], JVal.ref st.length) by
      simp [publishClone, ht]] at h
    simp only [Option.some.injEq, Prod.mk.injEq] at h
    obtain ⟨h1, h2⟩ := h
    subst h1
    subst h2
    refine ⟨⟨[[]], rfl⟩,
      highClosed_append_one st.length st []
        (highClosed_of_length_le st.length st le_rfl)
        (fun kv hkv b hb => absurd hkv (List.not_mem_nil kv)), ?_⟩
    intro b hb
    injection hb with h'
    omega


/-- Claim C8, confirmed.  Whenever the data path of `publish` completes
(clone, then in-place sanitisation of the clone), every address that
existed in the caller's store before the call — in particular the
caller's original data object — is left bit-for-bit untouched, and the
sanitized value handed to `_send`, when it is an object reference, lives
strictly in the freshly allocated region (it never aliases any
pre-existing object).  Concretely, publishing `{password:'p'}` leaves
the original object reading `'p'` while the sent clone reads
`'[HIDDEN]'`. -/
theorem C8_publish_no_mutation (cf sf : Nat) (st : Store) (data : JVal)
    (st2 : Store) (v2 : JVal)
    (h : publishDataPipeline cf sf st data = some (st2, v2)) :
    (∀ j, j < st.length → st2.get? j = st.get? j) ∧
    (∀ b, v2 = JVal.ref b → st.length ≤ b) ∧
    publishDataPipeline 9 9 [[("password".data, JVal.str "p".data)]]
        (.ref 0) =
      some ([[("password".data, JVal.str "p".data)],
             [("password".data, JVal.str "[HIDDEN]".data)]], .ref 1) := by
  cases hclone : publishClone cf st data with
  | none =>
    rw [show publishDataPipeline cf sf st data = none by
      simp [publishDataPipeline, hclone]] at h
    exact Option.noConfusion h
  | some p =>
    obtain ⟨stc, vc⟩ := p
    obtain ⟨⟨d, hd⟩, hc, hr⟩ := publishClone_spec cf st data stc vc hclone
    have hext : ∀ j, j < st.length → stc.get? j = st.get? j := by
      intro j hj
      rw [hd]
      exact List.get?_append hj
    rw [show publishDataPipeline cf sf st data =
        some ((_sanitize sf stc [] vc).1, (_sanitize sf stc [] vc).2.2) by
      simp [publishDataPipeline, hclone]] at h
    simp only [Option.some.injEq, Prod.mk.injEq] at h
    obtain ⟨h1, h2⟩ := h
    cases vc with
    | ref a =>
      have ha : st.length ≤ a := hr a rfl
      have hred : _sanitize sf stc [] (JVal.ref a) =
          ((sanitizeKeys sf stc [] a ((getObj stc a).map Prod.fst)).1,
            (sanitizeKeys sf stc [] a ((getObj stc a).map Prod.fst)).2,
            JVal.ref a) := by
        simp +decide [_sanitize, jvalTruthy, jvalTypeof]
      rw [hred] at h1 h2
      obtain ⟨hs1, _⟩ :=
        sanitizeKeys_frame sf stc [] a ((getObj stc a).map Prod.fst)
          st.length ha hc
      refine ⟨?_, ?_, by decide⟩
      · intro j hj
        rw [← h1]
        exact (hs1 j hj).trans (hext j hj)
      · intro b hb
        rw [← h2] at hb
        injection hb with h'
        omega
    | null =>
      have hred : _sanitize sf stc [] JVal.null = (stc, [], JVal.null) := by
        simp +decide [_sanitize, jvalTruthy, jvalTypeof]
      rw [hred] at h1 h2
      refine ⟨fun j hj => by rw [← h1]; exact hext j hj, ?_, by decide⟩
      intro b hb
      rw [← h2] at hb
      cases hb
    | bool bb =>
      have hred : _sanitize sf stc [] (JVal.bool bb) =
          (stc, [], JVal.bool bb) := by
        simp +decide [_sanitize, jvalTruthy, jvalTypeof]
      rw [hred] at h1 h2
      refine ⟨fun j hj => by rw [← h1]; exact hext j hj, ?_, by decide⟩
      intro b hb
      rw [← h2] at hb
      cases hb
    | num nn =>
      have hred : _sanitize sf stc [] (JVal.num nn) =
          (stc, [], JVal.num nn) := by
        simp +decide [_sanitize, jvalTruthy, jvalTypeof]
      rw [hred] at h1 h2
      refine ⟨fun j hj => by rw [← h1]; exact hext j hj, ?_, by decide⟩
      intro b hb
      rw [← h2] at hb
      cases hb
    | str ss =>
      have hred : _sanitize sf stc [] (JVal.str ss) =
          (stc, [], JVal.str ss) := by
        simp +decide [_sanitize, jvalTruthy, jvalTypeof]
      rw [hred] at h1 h2
      refine ⟨fun j hj => by rw [← h1]; exact hext j hj, ?_, by decide⟩
      intro b hb
      rw [← h2] at hb
      cases hb
    | date =>
      have hred : _sanitize sf stc [] JVal.date = (stc, [], JVal.date) := by
        simp +decide [_sanitize, jvalTruthy, jvalTypeof]
      rw [hred] at h1 h2
      refine ⟨fun j hj => by rw [← h1]; exact hext j hj, ?_, by decide⟩
      intro b hb
      rw [← h2] at hb
      cases hb
    | regexp src =>
      have hred : _sanitize sf stc [] (JVal.regexp src) =
          (stc, [], JVal.str src) := by
        simp +decide [_sanitize, jvalTruthy, jvalTypeof]
      rw [hred] at h1 h2
      refine ⟨fun j hj => by rw [← h1]; exact hext j hj, ?_, by decide⟩
      intro b hb
      rw [← h2] at hb
      cases hb
    | undef =>
      have hred : _sanitize sf stc [] JVal.undef = (stc, [], JVal.undef) := by
        simp +decide [_sanitize, jvalTruthy, jvalTypeof]
      rw [hred] at h1 h2
      refine ⟨fun j hj => by rw [← h1]; exact hext j hj, ?_, by decide⟩
      intro b hb
      rw [← h2] at hb
      cases hb
    | func =>
      have hred : _sanitize sf stc [] JVal.func = (stc, [], JVal.func) := by
        simp +decide [_sanitize, jvalTruthy, jvalTypeof]
      rw [hred] at h1 h2
      refine ⟨fun j hj => by rw [← h1]; exact hext j hj, ?_, by decide⟩
      intro b hb
      rw [← h2] at hb
      cases hb

/-- Witness for `C8_publish_no_mutation` at the claim's own scenario:
publishing `{password:'p'}` from a one-object store. -/
theorem C8_publish_no_mutation_witness :
    publishDataPipeline 9 9 [[("password".data, JVal.str "p".data)]]
        (JVal.ref 0) =
      some ([[("password".data, JVal.str "p".data)],
             [("password".data, JVal.str "[HIDDEN]".data)]], JVal.ref 1) ∧
    ((∀ j, j < ([[("password".data, JVal.str "p".data)]] : Store).length →
        ([[("password".data, JVal.str "p".data)],
          [("password".data, JVal.str "[HIDDEN]".data)]] : Store).get? j =
        ([[("password".data, JVal.str "p".data)]] : Store).get? j) ∧
      (∀ b, JVal.ref 1 = JVal.ref b →
        ([[("password".data, JVal.str "p".data)]] : Store).length ≤ b) ∧
      publishDataPipeline 9 9 [[("password".data, JVal.str "p".data)]]
          (.ref 0) =
        some ([[("password".data, JVal.str "p".data)],
               [("password".data, JVal.str "[HIDDEN]".data)]], .ref 1)) :=
  ⟨by decide,
    C8_publish_no_mutation 9 9 [[("password".data, JVal.str "p".data)]]
      (JVal.ref 0)
      [[("password".data, JVal.str "p".data)],
       [("password".data, JVal.str "[HIDDEN]".data)]] (JVal.ref 1)
      (by decide)⟩


lemma getObj_setObj_self (st : Store) (a : Nat) (o : JObj)
    (ha : a < st.length) : getObj (setObj st a o) a = o := by
  simp only [getObj, setObj]
  rw [List.get?_set_eq_of_lt o ha]
  rfl

/-- Claim C7, counterexample.  The specification asserts that a key
matching the `password`/`creditcard` prefix is replaced with
`'[HIDDEN]'` regardless of the value's type; but the function check runs
first, so a function value stored under the key `password` has its key
deleted instead of being masked. -/
theorem C7_sanitizer_counterexample :
    _sanitize 9 [[("password".data, JVal.func)]] [] (.ref 0) =
      ([[]], [], .ref 0) ∧
    readKey (getObj (_sanitize 9 [[("password".data, JVal.func)]] []
        (.ref 0)).1 0) "password".data = JVal.undef ∧
    ¬ readKey (getObj (_sanitize 9 [[("password".data, JVal.func)]] []
        (.ref 0)).1 0) "password".data = JVal.str "[HIDDEN]".data := by
  decide

/-- Claim C7, amended.  For every store, visited set and key of an
existing object, one iteration of the sanitizer's key loop behaves as
follows: a function-typed value has its key deleted — this check
precedes the redaction, so it wins even under a `password`/`creditcard`
key; a non-function value under a key matching the case-sensitive
`password`/`creditcard` prefix is overwritten with the literal
`'[HIDDEN]'` regardless of its type; and an object value already in the
visited set is overwritten with the literal `'[Circular]'`, with no
recursion into it and the visited set unchanged. -/
theorem C7_sanitizer_amended (fuel : Nat) (st : Store) (seen : List Nat)
    (a : Nat) (k : Str) (ha : a < st.length) :
    (jvalTypeof (readKey (getObj st a) k) = "function".data →
      sanitizeKeys (fuel + 1) st seen a [k] = (storeDel st a k, seen) ∧
      readKey (getObj (storeDel st a k) a) k = JVal.undef) ∧
    (¬ jvalTypeof (readKey (getObj st a) k) = "function".data →
      isPrivateKey k = true →
      sanitizeKeys (fuel + 1) st seen a [k] =
        (storeWrite st a k (.str "[HIDDEN]".data), seen) ∧
      readKey (getObj (storeWrite st a k (.str "[HIDDEN]".data)) a) k =
        JVal.str "[HIDDEN]".data) ∧
    (∀ b, readKey (getObj st a) k = JVal.ref b → seen.contains b = true →
      isPrivateKey k = false →
      sanitizeKeys (fuel + 1) st seen a [k] =
        (storeWrite st a k (.str "[Circular]".data), seen) ∧
      readKey (getObj (storeWrite st a k (.str "[Circular]".data)) a) k =
        JVal.str "[Circular]".data) := by
  refine ⟨?_, ?_, ?_⟩
  · intro hfn
    refine ⟨?_, ?_⟩
    · simp [sanitizeKeys, hfn, sanitizeKeys_nil]
    · show readKey (getObj (setObj st a (delKey (getObj st a) k)) a) k = _
      rw [getObj_setObj_self st a _ ha]
      exact readKey_delKey _ _
  · intro hfn hpk
    refine ⟨?_, ?_⟩
    · simp [sanitizeKeys, hfn, hpk, sanitizeKeys_nil]
    · show readKey (getObj (setObj st a
          (writeKey (getObj st a) k (.str "[HIDDEN]".data))) a) k = _
      rw [getObj_setObj_self st a _ ha]
      exact readKey_writeKey _ _ _
  · intro b hv hseen hpk
    have hfn : ¬ jvalTypeof (readKey (getObj st a) k) = "function".data := by
      rw [hv]
      exact (by decide : ¬ ("object".data : Str) = "function".data)
    have hmem : b ∈ seen := List.elem_iff.mp hseen
    refine ⟨?_, ?_⟩
    · simp +decide [sanitizeKeys, hfn, hv, hmem, hpk, sanitizeKeys_nil,
        jvalTypeof]
    · show readKey (getObj (setObj st a
          (writeKey (getObj st a) k (.str "[Circular]".data))) a) k = _
      rw [getObj_setObj_self st a _ ha]
      exact readKey_writeKey _ _ _

/-- Witness for `C7_sanitizer_amended`: a function value stored under
the key `password` in a one-object store is deleted, not masked. -/
theorem C7_sanitizer_amended_witness :
    0 < ([[("password".data, JVal.func)]] : Store).length ∧
    (sanitizeKeys 1 [[("password".data, JVal.func)]] [] 0 ["password".data] =
      (storeDel [[("password".data, JVal.func)]] 0 "password".data, []) ∧
      readKey (getObj (storeDel [[("password".data, JVal.func)]] 0
        "password".data) 0) "password".data = JVal.undef) :=
  ⟨by decide,
    (C7_sanitizer_amended 0 [[("password".data, JVal.func)]] [] 0
      "password".data (by decide)).1 (by decide)⟩

end AppcPubsub
